import Mathlib

/-!
Verification of the boxnote-converter repository against its specification.

The definitions below are a shallow embedding of the Python sources:
  src/boxnotes/utils/attribs.py      (base-36 decoding, attribute-string parsing,
                                      pool resolution, text-span extraction)
  src/boxnotes/detector.py           (format detection)
  src/boxnotes/parsers/old_format.py (legacy document builder)
  src/boxnotes/parsers/new_format.py (modern node-tree parser)
  src/boxnotes/converters/markdown.py / plaintext.py (renderers)
  src/boxnotes/models.py             (document model)

Strings are modelled as Lean `String`/`List Char`; Python integers as `Int`
(or `Nat` where the source only manipulates non-negative quantities);
Python exceptions as `Except String`/`Option`.  Each definition keeps the
source's name (camel-cased where needed) and control structure.
-/

/-! ## Base-36 decoding: `decode_base36` in src/boxnotes/utils/attribs.py

The Python implementation is `int(value, 36)` wrapped to re-raise `ValueError`.
`pyIntBase36` models CPython's `int(str, 36)` for ASCII inputs: optional
surrounding whitespace, an optional single `+`/`-` sign, then a non-empty
digit sequence over `[0-9a-zA-Z]` in which single underscores are allowed
between digits.  Any other character makes it fail (`none`). -/

/-- The six ASCII characters Python's `int` strips around a numeric literal. -/
def pyIsSpace (c : Char) : Bool :=
  c = ' ' || c = '\t' || c = '\n' || c = '\r' || c = '\x0b' || c = '\x0c'

/-- Is `c` a base-36 digit, i.e. in `[0-9a-zA-Z]`? -/
def isB36Char (c : Char) : Bool :=
  ('0' ≤ c && c ≤ '9') || ('a' ≤ c && c ≤ 'z') || ('A' ≤ c && c ≤ 'Z')

/-- Numeric value of a base-36 digit (case-insensitive). -/
def b36Val (c : Char) : Nat :=
  if '0' ≤ c && c ≤ '9' then c.toNat - '0'.toNat
  else if 'a' ≤ c && c ≤ 'z' then c.toNat - 'a'.toNat + 10
  else c.toNat - 'A'.toNat + 10

/-- Strip leading and trailing whitespace, as `int()` does before parsing. -/
def stripSpaces (l : List Char) : List Char :=
  ((l.dropWhile pyIsSpace).reverse.dropWhile pyIsSpace).reverse

/-- Scan the digits after the first one: base-36 digits, with a single
underscore allowed between two digits (CPython literal syntax). -/
def scanDigits : List Char → Nat → Option Nat
  | [], acc => some acc
  | c :: cs, acc =>
    if isB36Char c then scanDigits cs (acc * 36 + b36Val c)
    else if c = '_' then
      match cs with
      | [] => none
      | d :: ds => if isB36Char d then scanDigits ds (acc * 36 + b36Val d) else none
    else none

/-- The digit part of an `int(_, 36)` literal: non-empty, starts with a digit. -/
def digitsPart : List Char → Option Nat
  | [] => none
  | c :: cs => if isB36Char c then scanDigits cs (b36Val c) else none

/-- Model of CPython's `int(s, 36)`: `none` models `ValueError`. -/
def pyIntBase36 (l : List Char) : Option Int :=
  match stripSpaces l with
  | [] => none
  | c :: rest =>
    if c = '+' then
      match digitsPart rest with
      | some n => some (Int.ofNat n)
      | none => none
    else if c = '-' then
      match digitsPart rest with
      | some n => some (-(Int.ofNat n))
      | none => none
    else
      match digitsPart (c :: rest) with
      | some n => some (Int.ofNat n)
      | none => none

/-- `decode_base36` (src/boxnotes/utils/attribs.py, lines 8-33): delegates to
`int(value, 36)` and re-raises failures as `ValueError("Invalid base-36 ...")`,
modelled by `Except.error`. -/
def decode_base36 (value : String) : Except String Int :=
  match pyIntBase36 value.data with
  | some n => .ok n
  | none => .error ("Invalid base-36 string: " ++ value)

/-- `true` exactly when the `Except` value is a success. -/
def exceptIsOk : Except String α → Bool
  | .ok _ => true
  | .error _ => false

/-- The digit character for a value below 36, lowercase (standard alphabet). -/
def b36Digit (n : Nat) : Char :=
  "0123456789abcdefghijklmnopqrstuvwxyz".data.getD n '0'

/-- The standard base-36 encoding of a non-negative integer (digits 0-9 then
a-z), most significant first.  This is the spec-side notion of "standard
base-36 encoding" used to state the inverse property of `decode_base36`. -/
def stdBase36Encode (n : Nat) : List Char :=
  if _h : n < 36 then [b36Digit n]
  else stdBase36Encode (n / 36) ++ [b36Digit (n % 36)]
  decreasing_by exact Nat.div_lt_self (by omega) (by omega)

/-- Accumulator view of the value of a digit string. -/
def b36FoldVal (acc : Nat) (l : List Char) : Nat :=
  l.foldl (fun a c => a * 36 + b36Val c) acc

/-! ## Attribute chunks: `AttributeChunk` and `parse_attribute_string`
(src/boxnotes/utils/attribs.py, lines 36-166)

The Python dataclass stores a `Set[int]` of pool indices plus two ints; its
`__post_init__` raises `ValueError` on negative counts.  The set is modelled
as a duplicate-free `List Int` in insertion order (`setAdd` models
`set.add`); construction with validation is `mkAttributeChunk`. -/

structure AttributeChunk where
  attributes : List Int
  num_characters : Int
  num_linebreaks : Int
deriving DecidableEq, Repr

/-- `AttributeChunk(...)` with the `__post_init__` validation (lines 49-54). -/
def mkAttributeChunk (attributes : List Int) (num_characters num_linebreaks : Int) :
    Except String AttributeChunk :=
  if num_characters < 0 then .error "num_characters must be non-negative"
  else if num_linebreaks < 0 then .error "num_linebreaks must be non-negative"
  else .ok ⟨attributes, num_characters, num_linebreaks⟩

/-- Python `set.add`: no-op when the element is present. -/
def setAdd (l : List Int) (v : Int) : List Int :=
  if v ∈ l then l else l ++ [v]

/-- The inner `while ... == "*"` loop of `parse_attribute_string` (lines
107-119): consume `*<index>` groups, collecting decoded indices (decode
failures are swallowed by `try/except: pass`).  Each iteration consumes at
least one character, so the `fuel` bound `input length + 1` never runs out
(`none` models the unreachable exhaustion case). -/
def scanStarsF : Nat → List Char → List Int → Option (List Int × List Char)
  | 0, _, _ => none
  | _ + 1, [], acc => some (acc, [])
  | fuel + 1, c :: rest, acc =>
    if c = '*' then
      let numStr := rest.takeWhile fun ch => ¬(ch = '*' ∨ ch = '+' ∨ ch = '|')
      let rest2 := rest.dropWhile fun ch => ¬(ch = '*' ∨ ch = '+' ∨ ch = '|')
      let acc2 :=
        if numStr.isEmpty then acc
        else match pyIntBase36 numStr with
          | some v => setAdd acc v
          | none => acc
      scanStarsF fuel rest2 acc2
    else some (acc, c :: rest)

/-- The `+<count>` part (lines 121-137): returns the character count (0 when
the field is absent or fails to decode) and the remaining input. -/
def scanCount : List Char → Int × List Char
  | [] => (0, [])
  | c :: rest =>
    if c = '+' then
      let countStr := rest.takeWhile fun ch => ¬(ch = '|' ∨ ch = '*' ∨ ch = '+')
      let rest2 := rest.dropWhile fun ch => ¬(ch = '|' ∨ ch = '*' ∨ ch = '+')
      ((if countStr.isEmpty then 0 else (pyIntBase36 countStr).getD 0), rest2)
    else (0, c :: rest)

/-- The optional `|<breaks>` part (lines 139-154).  The stop set is only
`*` and `+`: a `+` after `|` starts the next chunk and is not consumed. -/
def scanBreaks : List Char → Int × List Char
  | [] => (0, [])
  | c :: rest =>
    if c = '|' then
      let breakStr := rest.takeWhile fun ch => ¬(ch = '*' ∨ ch = '+')
      let rest2 := rest.dropWhile fun ch => ¬(ch = '*' ∨ ch = '+')
      ((if breakStr.isEmpty then 0 else (pyIntBase36 breakStr).getD 0), rest2)
    else (0, c :: rest)

/-- The outer `while i < len` loop of `parse_attribute_string` (lines 93-164):
skip to the next `*`/`+`, read one chunk, emit it when it has characters or
linebreaks (construction may raise), repeat.  Every iteration consumes at
least one character, so fuel `input length + 1` suffices; exhaustion yields
an error marked unreachable (`parse_loop_ok` below proves it is never hit on
inputs without `-`, and reachable error states match Python's `ValueError`). -/
def parseChunksLoopF : Nat → List Char → Except String (List AttributeChunk)
  | 0, _ => .error "unreachable: fuel exhausted"
  | fuel + 1, l =>
    let l1 := l.dropWhile fun c => ¬(c = '*' ∨ c = '+')
    if l1.isEmpty then .ok []
    else
      match scanStarsF (l1.length + 1) l1 [] with
      | none => .error "unreachable: fuel exhausted"
      | some (attrs, l2) =>
        let sc := scanCount l2
        let sb := scanBreaks sc.2
        if sc.1 > 0 ∨ sb.1 > 0 then
          match mkAttributeChunk attrs sc.1 sb.1 with
          | .error e => .error e
          | .ok ch =>
            match parseChunksLoopF fuel sb.2 with
            | .error e => .error e
            | .ok rest => .ok (ch :: rest)
        else parseChunksLoopF fuel sb.2

/-- `parse_attribute_string` (lines 57-166). -/
def parse_attribute_string (attrib_string : String) : Except String (List AttributeChunk) :=
  if attrib_string.data.isEmpty then .ok []
  else parseChunksLoopF (attrib_string.data.length + 1) attrib_string.data

/-! ## Pool resolution: `resolve_attributes` (lines 169-201)

The pool argument is `Dict[str, Any]`; `resolve_attributes` returns `[]`
when it is falsy or lacks `"numToAttrib"`, which is modelled by `none`.
`numToAttrib` maps string-encoded integer indices to JSON arrays (modelled
as `List String`, matching the `[name, value]` contract); `str` on `Int` is
injective, so indices key the map directly. -/

abbrev Pool : Type := Option (List (Int × List String))

/-- Dictionary lookup in `numToAttrib` by (string-encoded) index. -/
def poolFind (m : List (Int × List String)) (i : Int) : Option (List String) :=
  (m.find? fun p => p.1 = i).map fun p => p.2

/-- One iteration of the `for index in sorted(pool_indices)` body: present,
list-shaped, length-≥-2 entries produce a `(name, value)` pair. -/
def resolveIndex (m : List (Int × List String)) (i : Int) : Option (String × String) :=
  match poolFind m i with
  | some entry => if 2 ≤ entry.length then some (entry.getD 0 "", entry.getD 1 "") else none
  | none => none

/-- `sorted(pool_indices)`: the set's elements in ascending order.  The input
list stands for the Python set (its element collection in arbitrary order);
`dedup` models the set's uniqueness, `insertionSort` the ascending sort. -/
def sortedIndices (indices : List Int) : List Int :=
  List.insertionSort (· ≤ ·) indices.dedup

/-- `resolve_attributes` (lines 169-201). -/
def resolve_attributes (pool_indices : List Int) (pool : Pool) : List (String × String) :=
  match pool with
  | none => []
  | some m => (sortedIndices pool_indices).filterMap (resolveIndex m)

/-! ## Text-span extraction: `extract_text_spans` (lines 204-249) -/

/-- Python's `text[a:b]` for `0 ≤ a ≤ b` (the only regime reached here;
claim C4 proves the cursor stays in bounds). -/
def pySlice (text : List Char) (a b : Int) : List Char :=
  (text.drop a.toNat).take (b - a).toNat

/-- Cursor after the character take of one chunk: `end_pos = min(position +
chunk.num_characters, len(text))` when `num_characters > 0` (line 231). -/
def chunkEndPos (textLen position : Int) (chunk : AttributeChunk) : Int :=
  if chunk.num_characters > 0 then min (position + chunk.num_characters) textLen
  else position

/-- Cursor after also applying the linebreak advance of the chunk:
`position = min(position + chunk.num_linebreaks, len(text))` (line 246). -/
def chunkNextPos (textLen position : Int) (chunk : AttributeChunk) : Int :=
  if chunk.num_linebreaks > 0 then
    min (chunkEndPos textLen position chunk + chunk.num_linebreaks) textLen
  else chunkEndPos textLen position chunk

/-- The `for chunk in chunks` loop of `extract_text_spans`, with the cursor
`position` made explicit so that its evolution can be stated.  Returns the
emitted spans and the final cursor. -/
def extractAux (text : List Char) (pool : Pool) :
    List AttributeChunk → Int → List (List Char × List (String × String)) × Int
  | [], position => ([], position)
  | chunk :: rest, position =>
    let endPos := chunkEndPos text.length position chunk
    let spans1 : List (List Char × List (String × String)) :=
      if chunk.num_characters > 0 then
        let textContent := pySlice text position endPos
        let attributes := resolve_attributes chunk.attributes pool
        if ¬textContent.isEmpty ∨ ¬attributes.isEmpty then [(textContent, attributes)] else []
      else []
    let spans2 : List (List Char × List (String × String)) :=
      if chunk.num_linebreaks > 0 then
        [(List.replicate chunk.num_linebreaks.toNat '\n', ([] : List (String × String)))]
      else []
    let r := extractAux text pool rest (chunkNextPos text.length position chunk)
    (spans1 ++ spans2 ++ r.1, r.2)

/-- `extract_text_spans` (lines 204-249), starting from cursor 0. -/
def extract_text_spans (text : List Char) (chunks : List AttributeChunk) (pool : Pool) :
    List (List Char × List (String × String)) :=
  (extractAux text pool chunks 0).1

/-- The example pool of spec section 8: entries at indices 0, 2, 5. -/
def examplePool : List (Int × List String) :=
  [(0, ["bold", "true"]), (2, ["italic", "true"]), (5, ["underline", "true"])]

/-! ## Generic JSON values

The parsers and the detector receive already-deserialized JSON.  `JValue`
models the value tree; objects keep their key order (Python dicts preserve
insertion order). -/

inductive JValue : Type where
  | str (s : String)
  | num (n : Int)
  | bool (b : Bool)
  | null
  | arr (elems : List JValue)
  | obj (fields : List (String × JValue))

/-- Dictionary lookup (`d[k]` / `d.get(k)`): first field with the key. -/
def jLookup (fields : List (String × JValue)) (key : String) : Option JValue :=
  (fields.find? fun p => p.1 = key).map fun p => p.2

/-- Does the object have the key (`k in d`)? -/
def jHasKey (fields : List (String × JValue)) (key : String) : Bool :=
  fields.any fun p => p.1 = key

/-- Python truthiness of a JSON value. -/
def pyTruthy : JValue → Bool
  | .str s => ¬s.isEmpty
  | .num n => n ≠ 0
  | .bool b => b
  | .null => false
  | .arr elems => ¬elems.isEmpty
  | .obj fields => ¬fields.isEmpty

/-- Python `==` between a JSON value and a string constant: only equal
strings compare equal. -/
def pyEqStr (v : JValue) (s : String) : Bool :=
  match v with
  | .str t => t = s
  | _ => false

/-- `str(v)` as used in f-string error messages.  Exact for the scalar values
that reach the messages below; containers get a placeholder rendering. -/
def pyStr : JValue → String
  | .str s => s
  | .num n => toString n
  | .bool true => "True"
  | .bool false => "False"
  | .null => "None"
  | .arr _ => "[...]"
  | .obj _ => "\x7b...\x7d"

/-- An optional JSON value as an optional string, for `TextAttributes` fields
(`link`, `color`, ...).  The documented format stores strings here; absent
keys and JSON `null` give `none`. -/
def jToOptStr : Option JValue → Option String
  | some (.str s) => some s
  | _ => none

/-! ## Document model (src/boxnotes/models.py) -/

inductive BlockType : Type where
  | paragraph
  | heading
  | code_block
  | blockquote
  | list
  | list_item
  | table
  | table_row
  | table_cell
  | horizontal_rule
  | image
deriving DecidableEq, Repr

inductive ListType : Type where
  | bullet
  | ordered
  | check
deriving DecidableEq, Repr

inductive FormatType : Type where
  | old
  | new
deriving DecidableEq, Repr

/-- `TextAttributes` (models.py lines 39-65). -/
structure TextAttributes where
  bold : Bool := false
  italic : Bool := false
  code : Bool := false
  underline : Bool := false
  strike : Bool := false
  link : Option String := none
  color : Option String := none
  size : Option String := none
  highlight : Option String := none
deriving DecidableEq, Repr

/-- `TextAttributes()`: every flag off, every optional field unset. -/
def defaultTextAttributes : TextAttributes := {}

/-- `TextSpan` (models.py lines 68-80): the `__post_init__` type checks are
enforced by the Lean types. -/
structure TextSpan where
  text : String
  attributes : TextAttributes
deriving DecidableEq, Repr

/-- `Block` (models.py lines 83-124).  `Block.attributes` is `Dict[str, Any]`
and is carried opaquely (as a `JValue`), never interpreted by renderers.
The `__post_init__` heading/list validations hold at every construction site
embedded below, so construction is direct. -/
inductive Block : Type where
  | mk
    (type : BlockType)
    (content : List TextSpan)
    (children : List Block)
    (attributes : JValue)
    (heading_level : Option Int)
    (list_type : Option ListType)
    (checked : Option Bool)
    (image_url : Option String)
    (image_path : Option String)
    (image_alt : Option String)
    (image_title : Option String)

def Block.type : Block → BlockType
  | .mk t _ _ _ _ _ _ _ _ _ _ => t

def Block.content : Block → List TextSpan
  | .mk _ c _ _ _ _ _ _ _ _ _ => c

def Block.children : Block → List Block
  | .mk _ _ ch _ _ _ _ _ _ _ _ => ch

def Block.attributes : Block → JValue
  | .mk _ _ _ a _ _ _ _ _ _ _ => a

def Block.heading_level : Block → Option Int
  | .mk _ _ _ _ hl _ _ _ _ _ _ => hl

def Block.list_type : Block → Option ListType
  | .mk _ _ _ _ _ lt _ _ _ _ _ => lt

def Block.checked : Block → Option Bool
  | .mk _ _ _ _ _ _ c _ _ _ _ => c

def Block.image_url : Block → Option String
  | .mk _ _ _ _ _ _ _ u _ _ _ => u

def Block.image_path : Block → Option String
  | .mk _ _ _ _ _ _ _ _ p _ _ => p

def Block.image_alt : Block → Option String
  | .mk _ _ _ _ _ _ _ _ _ a _ => a

def Block.image_title : Block → Option String
  | .mk _ _ _ _ _ _ _ _ _ _ t => t

/-- A `Block` with only a type and defaulted fields, then overridden where
needed by each construction site. -/
def Block.basic (t : BlockType) (content : List TextSpan) (attrs : JValue) : Block :=
  .mk t content [] attrs none none none none none none none

/-- `Document` (models.py lines 127-160). -/
structure Document where
  blocks : List Block
  metadata : List (String × JValue)

/-- All text spans in a block tree are non-empty: the content spans are, and
every child block satisfies the same property. -/
inductive AllSpansNonempty : Block → Prop where
  | intro {b : Block}
      (hcontent : ∀ s ∈ b.content, s.text ≠ "")
      (hchildren : ∀ c ∈ b.children, AllSpansNonempty c) :
      AllSpansNonempty b

/-! ## Format detection: `detect_format` (src/boxnotes/detector.py, lines
9-78).  `UnsupportedFormatError` is modelled by `Except.error` carrying the
message.  The one modelling liberty: Python renders the missing-key set
`required_keys - set(atext.keys())` in hash order; here the canonical order
`text, attribs` is used (they agree on every singleton set, as in the
claims). -/

/-- `repr` of a set of strings, e.g. one missing key renders as its quoted
name in braces. -/
def pySetRepr (keys : List String) : String :=
  "\x7b" ++ String.intercalate ", " (keys.map fun k => "'" ++ k ++ "'") ++ "\x7d"

def detect_format (data : JValue) : Except String FormatType :=
  match data with
  | .obj fields =>
    if jHasKey fields "atext" then
      match jLookup fields "atext" with
      | some (.obj atextFields) =>
        let missing := ["text", "attribs"].filter fun k => ¬jHasKey atextFields k
        if missing.isEmpty then .ok .old
        else .error ("Old format missing required keys: " ++ pySetRepr missing)
      | _ => .error "Old format 'atext' field must be a dictionary"
    else if jHasKey fields "doc" then
      match jLookup fields "doc" with
      | some (.obj docFields) =>
        if pyEqStr ((jLookup docFields "type").getD .null) "doc" then
          if jHasKey docFields "content" then .ok .new
          else .error "New format 'doc' missing 'content' field"
        else
          .error ("New format 'doc.type' must be 'doc', got " ++
            pyStr ((jLookup docFields "type").getD .null))
      | _ => .error "New format 'doc' field must be a dictionary"
    else if pyEqStr ((jLookup fields "type").getD .null) "doc" && jHasKey fields "content" then
      .ok .new
    else
      .error "Unknown Box Notes format. Expected 'atext' (old) or 'doc' (new) field."
  | _ => .error "Box Notes data must be a dictionary"

/-! ## String helpers shared by the parsers and converters.

`pyLower` is `str.lower` (ASCII, which is all the compared names use),
`pyInStr` is the substring operator `in`, `strStarts` is `str.startswith`,
`pyIsDigitStr` is `str.isdigit`. -/

def pyLower (s : String) : String := ⟨s.data.map Char.toLower⟩

/-- Is `pre` a leading run of `l`? -/
def listIsPre : List Char → List Char → Bool
  | [], _ => true
  | _ :: _, [] => false
  | p :: ps, c :: cs => p = c && listIsPre ps cs

/-- Does `hay` contain `needle` as a contiguous run? -/
def listHasSub (needle : List Char) : List Char → Bool
  | [] => needle.isEmpty
  | c :: cs => listIsPre needle (c :: cs) || listHasSub needle cs

def pyInStr (needle hay : String) : Bool := listHasSub needle.data hay.data

def strStarts (s pre : String) : Bool := listIsPre pre.data s.data

def pyIsDigitStr (s : String) : Bool := ¬s.data.isEmpty && s.data.all Char.isDigit

def pyDrop1 (s : String) : String := ⟨s.data.drop 1⟩

/-! ## Legacy document builder (src/boxnotes/parsers/old_format.py)

`_spans_to_document` folds the decoder's `(text, attributes)` stream into
blocks.  The span texts arrive as `List Char` straight from
`extract_text_spans`. -/

/-- `OldFormatParser._detect_block_type` (old_format.py lines 148-181). -/
def detectBlockTypeOld (attributes : List (String × String)) : BlockType :=
  match attributes.findSome? (fun p =>
    let nL := pyLower p.1
    if pyInStr "heading" nL || (strStarts nL "h" && pyIsDigitStr (pyDrop1 nL)) then
      some BlockType.heading
    else if pyInStr "list" nL then some BlockType.list
    else if pyInStr "code" nL then some BlockType.code_block
    else if pyInStr "quote" nL || pyInStr "blockquote" nL then some BlockType.blockquote
    else none) with
  | some t => t
  | none => BlockType.paragraph

/-- One step of `_attributes_to_text_attributes`'s `for` loop (old_format.py
lines 183-226): the `if/elif` chain for a single `(name, value)` pair. -/
def applyRawAttribute (a : TextAttributes) (p : String × String) : TextAttributes :=
  let nL := pyLower p.1
  let v := p.2
  if nL = "bold" || nL = "b" then { a with bold := pyLower v = "true" }
  else if nL = "italic" || nL = "i" then { a with italic := pyLower v = "true" }
  else if nL = "code" then { a with code := pyLower v = "true" }
  else if nL = "underline" || nL = "u" then { a with underline := pyLower v = "true" }
  else if nL = "strike" || nL = "strikethrough" then { a with strike := pyLower v = "true" }
  else if nL = "link" || nL = "url" then { a with link := some v }
  else if pyInStr "font-color" nL || pyInStr "color" nL then { a with color := some v }
  else if pyInStr "font-size" nL || pyInStr "size" nL then { a with size := some v }
  else if pyInStr "highlight" nL || pyInStr "background" nL then { a with highlight := some v }
  else a

/-- `OldFormatParser._attributes_to_text_attributes`. -/
def attributesToTextAttributes (attributes : List (String × String)) : TextAttributes :=
  attributes.foldl applyRawAttribute defaultTextAttributes

/-- One insertion into a Python dict: overwrite in place or append. -/
def pyDictInsert (m : List (String × String)) (k v : String) : List (String × String) :=
  if m.any (fun p => p.1 = k) then m.map (fun p => if p.1 = k then (k, v) else p)
  else m ++ [(k, v)]

/-- `dict(pairs)`: first-occurrence key order, last value wins. -/
def pyDict (pairs : List (String × String)) : List (String × String) :=
  pairs.foldl (fun m p => pyDictInsert m p.1 p.2) []

/-- `OldFormatParser._extract_heading_level` (lines 270-292): first digit
1-3 found scanning `value.lower() + name.lower()` of the first heading-ish
attribute that contains one; defaults to 1. -/
def extractHeadingLevel (attributes : List (String × String)) : Int :=
  match attributes.findSome? (fun p =>
    let nL := pyLower p.1
    let vL := pyLower p.2
    if pyInStr "heading" nL || strStarts nL "h" then
      (vL.data ++ nL.data).findSome? fun ch =>
        if ch.isDigit && (decide (1 ≤ ch.toNat - '0'.toNat) && decide (ch.toNat - '0'.toNat ≤ 3))
        then some ((ch.toNat - '0'.toNat : Nat) : Int)
        else none
    else none) with
  | some lvl => lvl
  | none => 1

/-- `OldFormatParser._extract_list_type` (lines 294-317). -/
def extractListType (attributes : List (String × String)) : ListType :=
  match attributes.findSome? (fun p =>
    let nL := pyLower p.1
    let vL := pyLower p.2
    if pyInStr "list" nL then
      if pyInStr "bullet" vL || pyInStr "unordered" vL then some ListType.bullet
      else if pyInStr "number" vL || pyInStr "ordered" vL then some ListType.ordered
      else if pyInStr "check" vL || pyInStr "task" vL then some ListType.check
      else none
    else none) with
  | some t => t
  | none => ListType.bullet

/-- The raw string-valued attribute dict as the opaque `Block.attributes`. -/
def strAttrsToJ (attributes : List (String × String)) : JValue :=
  .obj (attributes.map fun p => (p.1, .str p.2))

/-- `OldFormatParser._create_block` (lines 228-268): `None` on empty content;
heading and list blocks get their discriminant from the attribute dict; list
blocks carry no content and no children. -/
def createBlock (block_type : BlockType) (content : List TextSpan)
    (attributes : List (String × String)) : Option Block :=
  if content.isEmpty then none
  else if block_type = BlockType.heading then
    some (.mk .heading content [] (strAttrsToJ attributes)
      (some (extractHeadingLevel attributes)) none none none none none none)
  else if block_type = BlockType.list then
    some (.mk .list [] [] (strAttrsToJ attributes)
      none (some (extractListType attributes)) none none none none none)
  else
    some (.mk block_type content [] (strAttrsToJ attributes)
      none none none none none none none)

/-- `blocks.append(block)` guarded by `if block:` after `_create_block`. -/
def emitBlock (blocks : List Block) (t : BlockType) (cur : List TextSpan)
    (attrs : List (String × String)) : List Block :=
  match createBlock t cur attrs with
  | some b => blocks ++ [b]
  | none => blocks

/-- `text_content == "\n" or (text_content and text_content[0] == "\n")`. -/
def startsWithNewline : List Char → Bool
  | '\n' :: _ => true
  | _ => false

/-- The `for text_content, attributes in spans` loop of
`OldFormatParser._spans_to_document` (lines 75-146), with the loop state
(emitted blocks, accumulating span list, current type, current attribute
dict) passed explicitly. -/
def spansLoop : List (List Char × List (String × String)) → List Block → List TextSpan →
    BlockType → List (String × String) → List Block
  | [], blocks, cur, curType, curAttrs =>
    if cur.isEmpty then blocks else emitBlock blocks curType cur curAttrs
  | (textContent, attributes) :: rest, blocks, cur, curType, curAttrs =>
    if startsWithNewline textContent then
      let blocks1 := if cur.isEmpty then blocks else emitBlock blocks curType cur curAttrs
      let curType1 := if cur.isEmpty then curType else BlockType.paragraph
      let curAttrs1 : List (String × String) := if cur.isEmpty then curAttrs else []
      let cur1 : List TextSpan :=
        if 1 < textContent.length then
          let remaining := textContent.tail
          if remaining.isEmpty then []
          else [⟨⟨remaining⟩, attributesToTextAttributes attributes⟩]
        else []
      spansLoop rest blocks1 cur1 curType1 curAttrs1
    else
      let changed := ¬attributes.isEmpty &&
        decide (detectBlockTypeOld attributes ≠ curType) && ¬cur.isEmpty
      let blocks2 := if changed then emitBlock blocks curType cur curAttrs else blocks
      let cur2 := if changed then [] else cur
      let curType2 := if attributes.isEmpty then curType else detectBlockTypeOld attributes
      let curAttrs2 := if attributes.isEmpty then curAttrs else pyDict attributes
      let cur3 :=
        if textContent.isEmpty then cur2
        else cur2 ++ [⟨⟨textContent⟩, attributesToTextAttributes attributes⟩]
      spansLoop rest blocks2 cur3 curType2 curAttrs2

/-- `OldFormatParser._spans_to_document` (lines 75-146). -/
def spansToDocument (spans : List (List Char × List (String × String))) : Document :=
  ⟨spansLoop spans [] [] BlockType.paragraph [], []⟩

/-! ## Modern-format parser (src/boxnotes/parsers/new_format.py)

Node access mirrors Python exactly: `.get` on a non-dict raises
(`AttributeError`, modelled as `Except.error`, which `parse` would wrap in
`ParsingError`); `for` over a non-iterable raises `TypeError`.  All block
shapes the parser accepts are built below. -/

/-- `node.get(key)`: `none` when absent; error when `node` is not a dict. -/
def jGetE : JValue → String → Except String (Option JValue)
  | .obj fields, key => .ok (jLookup fields key)
  | _, _ => .error "AttributeError: 'get' on non-dict"

/-- `node.get(key, default)`. -/
def jGetDE (v : JValue) (key : String) (dflt : JValue) : Except String JValue :=
  match v with
  | .obj fields => .ok ((jLookup fields key).getD dflt)
  | _ => .error "AttributeError: 'get' on non-dict"

/-- `for x in v`: lists yield elements, strings their characters, dicts their
keys; everything else raises `TypeError`. -/
def jIterE : JValue → Except String (List JValue)
  | .arr elems => .ok elems
  | .str s => .ok (s.data.map fun c => .str ⟨[c]⟩)
  | .obj fields => .ok (fields.map fun p => .str p.1)
  | _ => .error "TypeError: not iterable"

/-- `attrs.get("level", 1)` then clamp: a value outside `(1, 2, 3)` becomes 1
(new_format.py lines 134-139).  Python's `in (1,2,3)` also accepts `True`
(equal to 1); every such value renders exactly like level 1, which is how it
is stored here. -/
def pyLevel (v : JValue) : Int :=
  match v with
  | .num n => if n = 1 ∨ n = 2 ∨ n = 3 then n else 1
  | .bool true => 1
  | _ => 1

/-- The `for mark in marks` loop of `_marks_to_attributes` (lines 300-340). -/
def marksFold : List JValue → TextAttributes → Except String TextAttributes
  | [], a => .ok a
  | mark :: rest, a => do
    let t? ← jGetE mark "type"
    let tv := t?.getD .null
    let mattrs ← jGetDE mark "attrs" (.obj [])
    if pyEqStr tv "strong" || pyEqStr tv "bold" then marksFold rest { a with bold := true }
    else if pyEqStr tv "em" || pyEqStr tv "italic" then marksFold rest { a with italic := true }
    else if pyEqStr tv "code" then marksFold rest { a with code := true }
    else if pyEqStr tv "underline" then marksFold rest { a with underline := true }
    else if pyEqStr tv "strike" || pyEqStr tv "strikethrough" then
      marksFold rest { a with strike := true }
    else if pyEqStr tv "link" then do
      let href ← jGetE mattrs "href"
      marksFold rest { a with link := jToOptStr href }
    else if pyEqStr tv "font_color" then do
      let cv ← jGetE mattrs "color"
      marksFold rest { a with color := jToOptStr cv }
    else if pyEqStr tv "font_size" then do
      let sv ← jGetE mattrs "size"
      marksFold rest { a with size := jToOptStr sv }
    else if pyEqStr tv "highlight" then do
      let hv ← jGetE mattrs "color"
      marksFold rest { a with highlight := jToOptStr hv }
    else marksFold rest a

/-- `NewFormatParser._marks_to_attributes` (lines 300-340). -/
def marksToAttributes (marksVal : JValue) : Except String TextAttributes := do
  let marks ← jIterE marksVal
  marksFold marks defaultTextAttributes

/-- The `for node in content` loop of `_parse_inline_content` (lines
270-298): `"text"` nodes become spans unless the text is empty (a truthy
non-string text raises in `TextSpan.__post_init__`); `"hard_break"` becomes
a newline span. -/
def parseInlineNode (node : JValue) : Except String (List TextSpan) := do
  let t? ← jGetE node "type"
  let tv := t?.getD .null
  if pyEqStr tv "text" then do
    let textVal ← jGetDE node "text" (.str "")
    let marksVal ← jGetDE node "marks" (.arr [])
    let attrs ← marksToAttributes marksVal
    match textVal with
    | .str s => pure (if s.isEmpty then ([] : List TextSpan) else [⟨s, attrs⟩])
    | v =>
      if pyTruthy v then Except.error "TypeError: TextSpan.text must be a string"
      else pure []
  else if pyEqStr tv "hard_break" then pure [⟨"\n", defaultTextAttributes⟩]
  else pure []

/-- The iteration of `_parse_inline_content` over its nodes. -/
def parseInlineNodes : List JValue → Except String (List TextSpan)
  | [] => .ok []
  | node :: rest => do
    let head ← parseInlineNode node
    let tail ← parseInlineNodes rest
    pure (head ++ tail)

/-- `NewFormatParser._parse_inline_content` (lines 270-298). -/
def parseInlineContent (contentVal : JValue) : Except String (List TextSpan) := do
  let nodes ← jIterE contentVal
  parseInlineNodes nodes

/-- `NewFormatParser._parse_paragraph` (lines 122-129). -/
def parseParagraph (node : JValue) : Except String Block := do
  let content ← parseInlineContent (← jGetDE node "content" (.arr []))
  let attrs ← jGetDE node "attrs" (.obj [])
  pure (Block.basic .paragraph content attrs)

/-- `NewFormatParser._parse_heading` (lines 131-146). -/
def parseHeading (node : JValue) : Except String Block := do
  let content ← parseInlineContent (← jGetDE node "content" (.arr []))
  let attrs ← jGetDE node "attrs" (.obj [])
  let levelVal ← jGetDE attrs "level" (.num 1)
  pure (.mk .heading content [] attrs (some (pyLevel levelVal)) none none none none none none)

/-- `NewFormatParser._parse_code_block` (lines 148-155). -/
def parseCodeBlock (node : JValue) : Except String Block := do
  let content ← parseInlineContent (← jGetDE node "content" (.arr []))
  let attrs ← jGetDE node "attrs" (.obj [])
  pure (Block.basic .code_block content attrs)

/-- `NewFormatParser._parse_blockquote` (lines 157-164). -/
def parseBlockquote (node : JValue) : Except String Block := do
  let content ← parseInlineContent (← jGetDE node "content" (.arr []))
  let attrs ← jGetDE node "attrs" (.obj [])
  pure (Block.basic .blockquote content attrs)

/-- `NewFormatParser._parse_horizontal_rule` (lines 166-172). -/
def parseHorizontalRule (node : JValue) : Except String Block := do
  let attrs ← jGetDE node "attrs" (.obj [])
  pure (Block.basic .horizontal_rule [] attrs)

/-- The paragraph-collecting loop shared by `_parse_list_item` and
`_parse_table_cell`: only `"paragraph"` children contribute inline text. -/
def itemParagraphNode (cn : JValue) : Except String (List TextSpan) := do
  let t? ← jGetE cn "type"
  if pyEqStr (t?.getD .null) "paragraph" then
    parseInlineContent (← jGetDE cn "content" (.arr []))
  else pure ([] : List TextSpan)

/-- The iteration of that loop over the item's child nodes. -/
def itemParagraphsFold : List JValue → Except String (List TextSpan)
  | [] => .ok []
  | cn :: rest => do
    let head ← itemParagraphNode cn
    let tail ← itemParagraphsFold rest
    pure (head ++ tail)

/-- The `checked` extraction of `_parse_list_item` (lines 207-210), stored by
truthiness, which is all its consumers read. -/
def checkListItemChecked (node : JValue) (tv : JValue) : Except String (Option Bool) :=
  if pyEqStr tv "check_list_item" then do
    let attrs ← jGetDE node "attrs" (.obj [])
    let cv ← jGetDE attrs "checked" (.bool false)
    pure (some (pyTruthy cv))
  else pure (none : Option Bool)

/-- `NewFormatParser._parse_list_item` (lines 191-217); `checked` comes from
`attrs.checked` only on `check_list_item` nodes. -/
def parseListItemNode (node : JValue) : Except String Block := do
  let contentNodes ← jIterE (← jGetDE node "content" (.arr []))
  let allContent ← itemParagraphsFold contentNodes
  let t? ← jGetE node "type"
  let checked ← checkListItemChecked node (t?.getD .null)
  let attrs ← jGetDE node "attrs" (.obj [])
  pure (.mk .list_item allContent [] attrs none none checked none none none none)

/-- The `for child_node in content` loop of `_parse_list` (lines 176-182). -/
def listChildNode (cn : JValue) : Except String (List Block) := do
  let t? ← jGetE cn "type"
  let tv := t?.getD .null
  if pyEqStr tv "list_item" || pyEqStr tv "check_list_item" then do
    let b ← parseListItemNode cn
    pure [b]
  else pure ([] : List Block)

/-- The iteration of that loop over the list's child nodes. -/
def listChildrenFold : List JValue → Except String (List Block)
  | [] => .ok []
  | cn :: rest => do
    let head ← listChildNode cn
    let tail ← listChildrenFold rest
    pure (head ++ tail)

/-- `NewFormatParser._parse_list` (lines 174-189). -/
def parseListNode (node : JValue) (list_type : ListType) : Except String Block := do
  let childNodes ← jIterE (← jGetDE node "content" (.arr []))
  let children ← listChildrenFold childNodes
  let attrs ← jGetDE node "attrs" (.obj [])
  pure (.mk .list [] children attrs none (some list_type) none none none none none)

/-- `NewFormatParser._parse_table_cell` (lines 251-268). -/
def parseTableCell (node : JValue) : Except String Block := do
  let contentNodes ← jIterE (← jGetDE node "content" (.arr []))
  let allContent ← itemParagraphsFold contentNodes
  let attrs ← jGetDE node "attrs" (.obj [])
  pure (Block.basic .table_cell allContent attrs)

/-- The cell loop of `_parse_table_row` (lines 239-243). -/
def rowCellNode (cn : JValue) : Except String (List Block) := do
  let t? ← jGetE cn "type"
  let tv := t?.getD .null
  if pyEqStr tv "table_cell" || pyEqStr tv "table_header" then do
    let b ← parseTableCell cn
    pure [b]
  else pure ([] : List Block)

/-- The iteration of that loop over the row's cell nodes. -/
def rowCellsFold : List JValue → Except String (List Block)
  | [] => .ok []
  | cn :: rest => do
    let head ← rowCellNode cn
    let tail ← rowCellsFold rest
    pure (head ++ tail)

/-- `NewFormatParser._parse_table_row` (lines 235-249). -/
def parseTableRow (node : JValue) : Except String Block := do
  let cellNodes ← jIterE (← jGetDE node "content" (.arr []))
  let children ← rowCellsFold cellNodes
  let attrs ← jGetDE node "attrs" (.obj [])
  pure (.mk .table_row [] children attrs none none none none none none none)

/-- The row loop of `_parse_table` (lines 222-227). -/
def tableRowNode (rn : JValue) : Except String (List Block) := do
  let t? ← jGetE rn "type"
  if pyEqStr (t?.getD .null) "table_row" then do
    let b ← parseTableRow rn
    pure [b]
  else pure ([] : List Block)

/-- The iteration of that loop over the table's row nodes. -/
def tableRowsFold : List JValue → Except String (List Block)
  | [] => .ok []
  | rn :: rest => do
    let head ← tableRowNode rn
    let tail ← tableRowsFold rest
    pure (head ++ tail)

/-- `NewFormatParser._parse_table` (lines 219-233). -/
def parseTable (node : JValue) : Except String Block := do
  let rowNodes ← jIterE (← jGetDE node "content" (.arr []))
  let children ← tableRowsFold rowNodes
  let attrs ← jGetDE node "attrs" (.obj [])
  pure (.mk .table [] children attrs none none none none none none none)

/-- `NewFormatParser._parse_node` (lines 84-120): dispatch by `type`, `none`
for falsy or unknown types. -/
def parseNode (node : JValue) : Except String (Option Block) := do
  let t? ← jGetE node "type"
  let tv := t?.getD .null
  if ¬pyTruthy tv then pure none
  else if pyEqStr tv "paragraph" then some <$> parseParagraph node
  else if pyEqStr tv "heading" then some <$> parseHeading node
  else if pyEqStr tv "code_block" then some <$> parseCodeBlock node
  else if pyEqStr tv "blockquote" then some <$> parseBlockquote node
  else if pyEqStr tv "horizontal_rule" then some <$> parseHorizontalRule node
  else if pyEqStr tv "bullet_list" then some <$> parseListNode node .bullet
  else if pyEqStr tv "ordered_list" then some <$> parseListNode node .ordered
  else if pyEqStr tv "check_list" then some <$> parseListNode node .check
  else if pyEqStr tv "table" then some <$> parseTable node
  else pure none

/-- `NewFormatParser._parse_content_nodes` (lines 65-82): every node that
parses to a block is kept, in order. -/
def parseContentNodes : List JValue → Except String (List Block)
  | [] => .ok []
  | node :: rest => do
    let b? ← parseNode node
    let tail ← parseContentNodes rest
    pure (match b? with
      | some b => b :: tail
      | none => tail)

/-! ## Renderers (src/boxnotes/converters/plaintext.py and markdown.py) -/

/-- `block.heading_level or 1`: `None` and the falsy 0 become 1. -/
def levelOr1 : Option Int → Int
  | none => 1
  | some n => if n = 0 then 1 else n

/-- `if span.attributes.link:` — the link when it is truthy (a non-empty
string). -/
def activeLink (a : TextAttributes) : Option String :=
  match a.link with
  | some url => if url.isEmpty then none else some url
  | none => none

/-- `a or b` for an optional-string field against a string default. -/
def pyOrOptStr (v : Option String) (els : String) : String :=
  match v with
  | some s => if s.isEmpty then els else s
  | none => els

/-- `"  " * indent_level`. -/
def indentOf (indentLevel : Nat) : String :=
  String.join (List.replicate indentLevel "  ")

/-- `PlainTextConverter._convert_text_spans` (plaintext.py lines 168-189):
formatting stripped, links shown as `text (url)`. -/
def convertTextSpansPt (spans : List TextSpan) : String :=
  String.join (spans.map fun span =>
    match activeLink span.attributes with
    | some url => span.text ++ " (" ++ url ++ ")"
    | none => span.text)

/-- `PlainTextConverter._convert_heading` (lines 79-92): text, newline, then
an underline of the same length in the level's character. -/
def convertHeadingPt (b : Block) : String :=
  let text := convertTextSpansPt b.content
  let level := levelOr1 b.heading_level
  let underline : String :=
    if level = 1 then ⟨List.replicate text.length '='⟩
    else if level = 2 then ⟨List.replicate text.length '-'⟩
    else ⟨List.replicate text.length '~'⟩
  text ++ "\n" ++ underline

/-- `PlainTextConverter._convert_code_block` (lines 94-99). -/
def convertCodeBlockPt (b : Block) : String :=
  String.intercalate "\n"
    (((convertTextSpansPt b.content).splitOn "\n").map fun line => "    " ++ line)

/-- `PlainTextConverter._convert_blockquote` (lines 101-106). -/
def convertBlockquotePt (b : Block) : String :=
  String.intercalate "\n"
    (((convertTextSpansPt b.content).splitOn "\n").map fun line => "    > " ++ line)

/-- `PlainTextConverter._convert_image` (lines 108-115). -/
def convertImagePt (b : Block) : String :=
  "[Image: " ++ pyOrOptStr b.image_alt "image" ++ "] (" ++
    pyOrOptStr b.image_path (pyOrOptStr b.image_url "") ++ ")"

/-- The item marker of `_convert_list` (plaintext.py lines 124-133). -/
def ptItemMarker (lt : Option ListType) (indent : String) (i : Nat)
    (checked : Option Bool) : String :=
  match lt with
  | some .bullet => indent ++ "• "
  | some .ordered => indent ++ toString i ++ ". "
  | some .check => indent ++ (if checked.getD false then "☑" else "☐") ++ " "
  | none => indent ++ "• "

mutual

/-- `PlainTextConverter._convert_list` (lines 117-145). -/
def convertListPt : Block → Nat → String
  | Block.mk _ _ children _ _ listType _ _ _ _ _, indentLevel =>
    String.intercalate "\n" (ptListLines listType indentLevel 1 children)

/-- The `for i, item in enumerate(block.children, 1)` loop: only
`list_item` children render; the index advances on every child. -/
def ptListLines : Option ListType → Nat → Nat → List Block → List String
  | _, _, _, [] => []
  | lt, ind, i, (Block.mk ty content children _ _ _ chk _ _ _ _) :: rest =>
    (if ty = BlockType.list_item then
      (ptItemMarker lt (indentOf ind) i chk ++ convertTextSpansPt content) ::
        ptNestedLines ind children
     else []) ++ ptListLines lt ind (i + 1) rest

/-- The `for child in item.children` loop: nested lists recurse one level
deeper. -/
def ptNestedLines : Nat → List Block → List String
  | _, [] => []
  | ind, c :: rest =>
    (if c.type = BlockType.list then [convertListPt c (ind + 1)] else []) ++
      ptNestedLines ind rest

end

/-- `PlainTextConverter._convert_table` (lines 147-166): tab-joined cells,
newlines in cell text collapsed to spaces. -/
def convertTablePt (b : Block) : String :=
  String.intercalate "\n" (b.children.filterMap fun row =>
    if row.type = BlockType.table_row then
      some (String.intercalate "\t" (row.children.filterMap fun cell =>
        if cell.type = BlockType.table_cell then
          some ⟨(convertTextSpansPt cell.content).data.map fun c =>
            if c = '\n' then ' ' else c⟩
        else none))
    else none)

/-- `PlainTextConverter._convert_block` (lines 44-73). -/
def convertBlockPt (b : Block) : String :=
  if b.type = BlockType.paragraph then convertTextSpansPt b.content
  else if b.type = BlockType.heading then convertHeadingPt b
  else if b.type = BlockType.code_block then convertCodeBlockPt b
  else if b.type = BlockType.blockquote then convertBlockquotePt b
  else if b.type = BlockType.horizontal_rule then ⟨List.replicate 60 '-'⟩
  else if b.type = BlockType.list then convertListPt b 0
  else if b.type = BlockType.table then convertTablePt b
  else if b.type = BlockType.image then convertImagePt b
  else convertTextSpansPt b.content

/-- `PlainTextConverter.convert` (lines 17-42): blocks rendering to the empty
string are skipped, the rest joined by a blank line. -/
def ptConvert (document : Document) : String :=
  String.intercalate "\n\n" (document.blocks.filterMap fun block =>
    let text := convertBlockPt block
    if text.isEmpty then none else some text)

/-- The backtick character (code 96). -/
def backtickChar : Char := Char.ofNat 96

/-- `text.replace("]", "\\]")`. -/
def escBracketText (text : String) : String :=
  ⟨text.data.foldr (fun c acc => if c = ']' then '\\' :: ']' :: acc else c :: acc) []⟩

/-- `cell_text.replace("|", "\\|")`. -/
def escPipes (text : String) : String :=
  ⟨text.data.foldr (fun c acc => if c = '|' then '\\' :: '|' :: acc else c :: acc) []⟩

/-- One `re.sub(f"(?<!\\\\){re.escape(char)}", f"\\{char}", text)` pass of
`_escape_markdown` (markdown.py lines 220-224): each occurrence of `c` whose
preceding input character is not a backslash gets a backslash prefix.  For
`c = '\\'` the replacement template collapses to a single backslash, making
that pass the identity. -/
def subPass (c : Char) : List Char → Option Char → List Char
  | [], _ => []
  | x :: xs, prev =>
    if x = c ∧ prev ≠ some '\\' then
      (if c = '\\' then ['\\'] else ['\\', c]) ++ subPass c xs (some x)
    else x :: subPass c xs (some x)

/-- The `special_chars` list of `_escape_markdown` (line 220). -/
def mdSpecials : List Char :=
  ['\\', '#', '*', '_', '[', ']', '(', ')', backtickChar]

/-- `MarkdownConverter._escape_markdown` (lines 204-226). -/
def escapeMarkdown (text : String) : String :=
  if strStarts text "**" || strStarts text "*" || strStarts text "`" then text
  else ⟨mdSpecials.foldl (fun cs c => subPass c cs none) text.data⟩

/-- `MarkdownConverter._convert_text_spans` (lines 154-202). -/
def convertTextSpansMd (spans : List TextSpan) (preserveFormatting : Bool) : String :=
  String.join (spans.map fun span =>
    if ¬preserveFormatting then span.text
    else
      let text0 := span.text
      let text1 :=
        if span.attributes.bold && span.attributes.italic then "***" ++ text0 ++ "***"
        else if span.attributes.bold then "**" ++ text0 ++ "**"
        else if span.attributes.italic then "*" ++ text0 ++ "*"
        else text0
      let text2 := if span.attributes.code then "`" ++ text1 ++ "`" else text1
      let text3 := if span.attributes.strike then "~~" ++ text2 ++ "~~" else text2
      let text4 :=
        match activeLink span.attributes with
        | some url => "[" ++ escBracketText text3 ++ "](" ++ url ++ ")"
        | none => text3
      if ¬span.attributes.code && (activeLink span.attributes).isNone then
        escapeMarkdown text4
      else text4)

/-- `MarkdownConverter._convert_heading` (lines 78-83). -/
def convertHeadingMd (b : Block) : String :=
  ⟨List.replicate (levelOr1 b.heading_level).toNat '#'⟩ ++ " " ++
    convertTextSpansMd b.content true

/-- `MarkdownConverter._convert_code_block` (lines 85-89). -/
def convertCodeBlockMd (b : Block) : String :=
  "```\n" ++ convertTextSpansMd b.content false ++ "\n```"

/-- `MarkdownConverter._convert_blockquote` (lines 91-96). -/
def convertBlockquoteMd (b : Block) : String :=
  String.intercalate "\n"
    (((convertTextSpansMd b.content true).splitOn "\n").map fun line => "> " ++ line)

/-- The item marker of `_convert_list` (markdown.py lines 105-114). -/
def mdItemMarker (lt : Option ListType) (indent : String) (i : Nat)
    (checked : Option Bool) : String :=
  match lt with
  | some .bullet => indent ++ "- "
  | some .ordered => indent ++ toString i ++ ". "
  | some .check => indent ++ "- [" ++ (if checked.getD false then "x" else " ") ++ "] "
  | none => indent ++ "- "

mutual

/-- `MarkdownConverter._convert_list` (lines 98-126). -/
def convertListMd : Block → Nat → String
  | Block.mk _ _ children _ _ listType _ _ _ _ _, indentLevel =>
    String.intercalate "\n" (mdListLines listType indentLevel 1 children)

/-- The `for i, item in enumerate(block.children, 1)` loop of the Markdown
list renderer. -/
def mdListLines : Option ListType → Nat → Nat → List Block → List String
  | _, _, _, [] => []
  | lt, ind, i, (Block.mk ty content children _ _ _ chk _ _ _ _) :: rest =>
    (if ty = BlockType.list_item then
      (mdItemMarker lt (indentOf ind) i chk ++ convertTextSpansMd content true) ::
        mdNestedLines ind children
     else []) ++ mdListLines lt ind (i + 1) rest

/-- The nested-list loop of the Markdown list renderer. -/
def mdNestedLines : Nat → List Block → List String
  | _, [] => []
  | ind, c :: rest =>
    (if c.type = BlockType.list then [convertListMd c (ind + 1)] else []) ++
      mdNestedLines ind rest

end

/-- The row loop of `MarkdownConverter._convert_table` (lines 128-152): a
`---` separator row is inserted right after the row at index 0. -/
def mdTableLines : Nat → List Block → List String
  | _, [] => []
  | i, row :: rest =>
    (if row.type = BlockType.table_row then
      let cells := row.children.filterMap fun cell =>
        if cell.type = BlockType.table_cell then
          some (escPipes (convertTextSpansMd cell.content true))
        else none
      let rowText := "| " ++ String.intercalate " | " cells ++ " |"
      if i = 0 then
        [rowText, "| " ++ String.intercalate " | " (List.replicate cells.length "---") ++ " |"]
      else [rowText]
     else []) ++ mdTableLines (i + 1) rest

/-- `MarkdownConverter._convert_table` (lines 128-152). -/
def convertTableMd (b : Block) : String :=
  String.intercalate "\n" (mdTableLines 0 b.children)

/-- `MarkdownConverter._convert_block` (lines 45-72).  Note: there is no
`IMAGE` case — an image block reaches the fallback branch and renders as a
paragraph. -/
def convertBlockMd (b : Block) : String :=
  if b.type = BlockType.paragraph then convertTextSpansMd b.content true
  else if b.type = BlockType.heading then convertHeadingMd b
  else if b.type = BlockType.code_block then convertCodeBlockMd b
  else if b.type = BlockType.blockquote then convertBlockquoteMd b
  else if b.type = BlockType.horizontal_rule then "---"
  else if b.type = BlockType.list then convertListMd b 0
  else if b.type = BlockType.table then convertTableMd b
  else convertTextSpansMd b.content true

/-- `MarkdownConverter.convert` (lines 18-43). -/
def mdConvert (document : Document) : String :=
  String.intercalate "\n\n" (document.blocks.filterMap fun block =>
    let text := convertBlockMd block
    if text.isEmpty then none else some text)

/-! ## Concrete example values used by witnesses and counterexamples. -/

/-- An image block with a URL, alt text and no content spans. -/
def exampleImageBlock : Block :=
  .mk .image [] [] (.obj []) none none none
    (some "https://example.com/d.png") none (some "diagram") none

/-- A level-2 heading block with text `"Sub"`. -/
def exampleSubHeading : Block :=
  .mk .heading [⟨"Sub", defaultTextAttributes⟩] [] (.obj []) (some 2)
    none none none none none none

/-- `{"atext": {"text": "x"}}` — legacy input missing `attribs`. -/
def exampleAtextMissing : JValue := .obj [("atext", .obj [("text", .str "x")])]

/-- `{"doc": {"type": "paragraph"}}` — modern input with the wrong doc type. -/
def exampleDocWrongType : JValue := .obj [("doc", .obj [("type", .str "paragraph")])]

/-- The list block the legacy builder emits for a span carrying a
`list=number1` attribute. -/
def exampleListBlock : Block :=
  .mk .list [] [] (.obj [("list", .str "number1")]) none (some .ordered)
    none none none none none

/-- The paragraph block either parser produces for plain text `"hi"`. -/
def exampleParaBlock : Block :=
  .mk .paragraph [⟨"hi", defaultTextAttributes⟩] [] (.obj [])
    none none none none none none none

/-- A modern-format paragraph node containing the text `"hi"`. -/
def exampleParaNode : JValue :=
  .obj [("type", .str "paragraph"),
        ("content", .arr [.obj [("type", .str "text"), ("text", .str "hi")]])]

/-- A modern-format heading node with level 2 and text `"T"`. -/
def exampleHeadingNode : JValue :=
  .obj [("type", .str "heading"), ("attrs", .obj [("level", .num 2)]),
        ("content", .arr [.obj [("type", .str "text"), ("text", .str "T")]])]

/-- The block the modern parser builds for `exampleHeadingNode`. -/
def exampleNewHeadingBlock : Block :=
  .mk .heading [⟨"T", defaultTextAttributes⟩] [] (.obj [("level", .num 2)])
    (some 2) none none none none none none

-- THEOREMS-START

/-- Every base-36 digit value below 36 round-trips through `b36Digit`. -/
theorem b36Digit_val : ∀ m : Nat, m < 36 →
    isB36Char (b36Digit m) = true ∧ b36Val (b36Digit m) = m := by decide

/-- A base-36 digit is not whitespace, a sign, or an underscore. -/
theorem isB36Char_excl {c : Char} (h : isB36Char c = true) :
    pyIsSpace c = false ∧ c ≠ '+' ∧ c ≠ '-' ∧ c ≠ '_' := by
  refine ⟨?_, ?_, ?_, ?_⟩
  · cases hs : pyIsSpace c
    · rfl
    · exfalso
      simp only [pyIsSpace, Bool.or_eq_true, decide_eq_true_eq] at hs
      rcases hs with ((((h1 | h1) | h1) | h1) | h1) | h1 <;> subst h1 <;>
        exact absurd h (by decide)
  · intro hc; subst hc; exact absurd h (by decide)
  · intro hc; subst hc; exact absurd h (by decide)
  · intro hc; subst hc; exact absurd h (by decide)

theorem scanDigits_all_b36 {l : List Char} {acc : Nat}
    (hall : ∀ c ∈ l, isB36Char c = true) :
    scanDigits l acc = some (b36FoldVal acc l) := by
  induction l generalizing acc with
  | nil => simp [scanDigits, b36FoldVal]
  | cons c cs ih =>
    have hc : isB36Char c = true := hall c (List.mem_cons_self c cs)
    rw [scanDigits.eq_def]
    simp only [hc, if_true]
    rw [ih (fun d hd => hall d (List.mem_cons_of_mem c hd))]
    simp [b36FoldVal]

theorem stdBase36Encode_props (n : Nat) :
    stdBase36Encode n ≠ [] ∧ (∀ c ∈ stdBase36Encode n, isB36Char c = true) ∧
      b36FoldVal 0 (stdBase36Encode n) = n := by
  induction n using Nat.strong_induction_on with
  | _ n ih =>
    by_cases h : n < 36
    · rw [stdBase36Encode, dif_pos h]
      refine ⟨by simp, ?_, ?_⟩
      · intro c hc
        simp only [List.mem_singleton] at hc
        subst hc
        exact (b36Digit_val n h).1
      · simp [b36FoldVal, (b36Digit_val n h).2]
    · rw [stdBase36Encode, dif_neg h]
      have hdiv : n / 36 < n := Nat.div_lt_self (by omega) (by omega)
      obtain ⟨hne, hall, hval⟩ := ih (n / 36) hdiv
      have hm : n % 36 < 36 := Nat.mod_lt _ (by omega)
      refine ⟨by simp, ?_, ?_⟩
      · intro c hc
        rcases List.mem_append.mp hc with hc | hc
        · exact hall c hc
        · simp only [List.mem_singleton] at hc
          subst hc
          exact (b36Digit_val _ hm).1
      · unfold b36FoldVal
        rw [List.foldl_append]
        simp only [List.foldl_cons, List.foldl_nil]
        unfold b36FoldVal at hval
        rw [hval, (b36Digit_val _ hm).2]
        omega

theorem dropWhile_of_head_false {p : Char → Bool} :
    ∀ {l : List Char}, (∀ c ∈ l, p c = false) → l.dropWhile p = l
  | [], _ => rfl
  | c :: cs, h => by
    have := h c (List.mem_cons_self c cs)
    simp [List.dropWhile, this]

theorem stripSpaces_of_no_space {l : List Char}
    (h : ∀ c ∈ l, pyIsSpace c = false) : stripSpaces l = l := by
  unfold stripSpaces
  rw [dropWhile_of_head_false h]
  rw [dropWhile_of_head_false (fun c hc => h c (List.mem_reverse.mp hc))]
  exact List.reverse_reverse l

/-- Inverse direction: decoding a standard encoding recovers the value. -/
theorem pyIntBase36_encode (n : Nat) :
    pyIntBase36 (stdBase36Encode n) = some (n : Int) := by
  obtain ⟨hne, hall, hval⟩ := stdBase36Encode_props n
  unfold pyIntBase36
  rw [stripSpaces_of_no_space (fun c hc => (isB36Char_excl (hall c hc)).1)]
  cases henc : stdBase36Encode n with
  | nil => exact absurd henc hne
  | cons c rest =>
    have hc : isB36Char c = true := by
      apply hall; rw [henc]; exact List.mem_cons_self c rest
    have hrest : ∀ d ∈ rest, isB36Char d = true := by
      intro d hd; apply hall; rw [henc]; exact List.mem_cons_of_mem c hd
    dsimp only
    rw [if_neg (by simpa using (isB36Char_excl hc).2.1),
        if_neg (by simpa using (isB36Char_excl hc).2.2.1)]
    unfold digitsPart
    dsimp only
    rw [if_pos hc, scanDigits_all_b36 hrest]
    have : b36FoldVal 0 (c :: rest) = n := by rw [← henc]; exact hval
    unfold b36FoldVal at this ⊢
    simp only [List.foldl_cons, Nat.zero_mul, Nat.zero_add] at this
    rw [this]
    rfl

theorem mem_dropWhile_of_false {p : Char → Bool} {c : Char} :
    ∀ {l : List Char}, c ∈ l → p c = false → c ∈ l.dropWhile p := by
  intro l
  induction l with
  | nil => intro h _; exact absurd h (List.not_mem_nil c)
  | cons a as ih =>
    intro hmem hpc
    rcases List.mem_cons.mp hmem with rfl | hmem'
    · simp [List.dropWhile, hpc]
    · by_cases hpa : p a
      · simpa [List.dropWhile, hpa] using ih hmem' hpc
      · simp only [List.dropWhile, hpa]
        exact List.mem_cons_of_mem a hmem'

theorem mem_stripSpaces {c : Char} {l : List Char}
    (hmem : c ∈ l) (hc : pyIsSpace c = false) : c ∈ stripSpaces l := by
  unfold stripSpaces
  rw [List.mem_reverse]
  exact mem_dropWhile_of_false (List.mem_reverse.mpr (mem_dropWhile_of_false hmem hc)) hc

theorem stripSpaces_subset {l : List Char} : ∀ x ∈ stripSpaces l, x ∈ l := by
  intro x hx
  unfold stripSpaces at hx
  rw [List.mem_reverse] at hx
  have hx2 := (List.dropWhile_sublist _).subset hx
  rw [List.mem_reverse] at hx2
  exact (List.dropWhile_sublist _).subset hx2

theorem scanDigits_chars {l : List Char} {acc : Nat} :
    ∀ {v : Nat}, scanDigits l acc = some v →
      ∀ c ∈ l, isB36Char c = true ∨ c = '_' := by
  induction l, acc using scanDigits.induct with
  | case1 acc => intro v _ c hc; exact absurd hc (List.not_mem_nil c)
  | case2 a cs acc ha ih =>
    intro v h c hc
    rw [scanDigits.eq_def] at h
    dsimp only at h
    rw [if_pos ha] at h
    rcases List.mem_cons.mp hc with rfl | hc'
    · exact Or.inl ha
    · exact ih h c hc'
  | case3 acc hu =>
    intro v h c hc
    rw [scanDigits.eq_def] at h
    dsimp only at h
    rw [if_neg hu, if_pos rfl] at h
    simp at h
  | case4 acc d ds hd hu ih =>
    intro v h c hc
    rw [scanDigits.eq_def] at h
    dsimp only at h
    rw [if_neg hu, if_pos rfl] at h
    rw [if_pos hd] at h
    rcases List.mem_cons.mp hc with rfl | hc'
    · exact Or.inr rfl
    · rcases List.mem_cons.mp hc' with rfl | hc''
      · exact Or.inl hd
      · exact ih h c hc''
  | case5 acc d ds hd hu =>
    intro v h c hc
    rw [scanDigits.eq_def] at h
    dsimp only at h
    rw [if_neg hu, if_pos rfl] at h
    rw [if_neg hd] at h
    simp at h
  | case6 a cs acc ha hu =>
    intro v h c hc
    rw [scanDigits.eq_def] at h
    dsimp only at h
    rw [if_neg ha, if_neg hu] at h
    simp at h

theorem digitsPart_chars {l : List Char} {v : Nat} (h : digitsPart l = some v) :
    ∀ c ∈ l, isB36Char c = true ∨ c = '_' := by
  intro c hc
  match l, hc with
  | a :: as, hc =>
    unfold digitsPart at h
    dsimp only at h
    by_cases ha : isB36Char a
    · rw [if_pos ha] at h
      rcases List.mem_cons.mp hc with rfl | hc'
      · exact Or.inl ha
      · exact scanDigits_chars h c hc'
    · rw [if_neg ha] at h
      exact absurd h (by simp)

theorem pyIntBase36_reject {l : List Char} {c : Char} (hc : c ∈ l)
    (h1 : isB36Char c = false) (h2 : pyIsSpace c = false)
    (h3 : c ≠ '+') (h4 : c ≠ '-') (h5 : c ≠ '_') : pyIntBase36 l = none := by
  cases hres : pyIntBase36 l with
  | none => rfl
  | some v =>
    exfalso
    have hcs : c ∈ stripSpaces l := mem_stripSpaces hc h2
    unfold pyIntBase36 at hres
    cases hstrip : stripSpaces l with
    | nil => rw [hstrip] at hcs; exact absurd hcs (List.not_mem_nil c)
    | cons h0 rest =>
      rw [hstrip] at hres hcs
      dsimp only at hres
      by_cases hp : h0 = '+'
      · rw [if_pos hp] at hres
        cases hdp : digitsPart rest with
        | none => rw [hdp] at hres; simp at hres
        | some n =>
          rcases List.mem_cons.mp hcs with rfl | hcs'
          · exact h3 hp
          · rcases digitsPart_chars hdp c hcs' with hb | hb
            · rw [hb] at h1; exact absurd h1 (by simp)
            · exact h5 hb
      · rw [if_neg hp] at hres
        by_cases hm : h0 = '-'
        · rw [if_pos hm] at hres
          cases hdp : digitsPart rest with
          | none => rw [hdp] at hres; simp at hres
          | some n =>
            rcases List.mem_cons.mp hcs with rfl | hcs'
            · exact h4 hm
            · rcases digitsPart_chars hdp c hcs' with hb | hb
              · rw [hb] at h1; exact absurd h1 (by simp)
              · exact h5 hb
        · rw [if_neg hm] at hres
          cases hdp : digitsPart (h0 :: rest) with
          | none => rw [hdp] at hres; simp at hres
          | some n =>
            rcases digitsPart_chars hdp c hcs with hb | hb
            · rw [hb] at h1; exact absurd h1 (by simp)
            · exact h5 hb

/-- C2 (counterexample).  The claim says `decode_base36` raises for every
string containing a character outside `[0-9a-zA-Z]`; but `"-1"` contains
`'-'`, which is outside that alphabet, and decodes to `-1` without error
(Python's `int(value, 36)` accepts a sign). -/
theorem C2_decode_base36_accepts_minus :
    decode_base36 "-1" = Except.ok (-1) ∧ '-' ∈ "-1".data ∧ isB36Char '-' = false :=
  ⟨rfl, by decide, by decide⟩

/-- C2 (amended).  `decode_base36` is a left inverse of the standard base-36
encoding for every non-negative integer, and it raises a decode error on any
string containing a character outside `[0-9a-zA-Z]` other than the
leniencies Python's `int` adds: surrounding ASCII whitespace, one leading
`'+'`/`'-'` sign (a `'-'` produces a negative result instead of an error),
and underscores used as digit separators. -/
theorem C2_decode_base36_inverse_and_reject :
    (∀ n : Nat, decode_base36 (String.mk (stdBase36Encode n)) = Except.ok (n : Int)) ∧
    (∀ (s : String) (c : Char), c ∈ s.data → isB36Char c = false →
      pyIsSpace c = false → c ≠ '+' → c ≠ '-' → c ≠ '_' →
      exceptIsOk (decode_base36 s) = false) := by
  constructor
  · intro n
    unfold decode_base36
    have : (String.mk (stdBase36Encode n)).data = stdBase36Encode n := rfl
    rw [this, pyIntBase36_encode]
  · intro s c hc h1 h2 h3 h4 h5
    unfold decode_base36
    rw [pyIntBase36_reject hc h1 h2 h3 h4 h5]
    rfl

/-- Witness for C2's amended theorem at concrete inputs. -/
theorem C2_decode_base36_witness :
    decode_base36 (String.mk (stdBase36Encode 47)) = Except.ok 47 ∧
    exceptIsOk (decode_base36 "inval!d") = false :=
  ⟨C2_decode_base36_inverse_and_reject.1 47,
   C2_decode_base36_inverse_and_reject.2 "inval!d" '!' (by decide) (by decide) (by decide)
     (by decide) (by decide) (by decide)⟩

theorem dropWhile_head_false {p : Char → Bool} :
    ∀ {l : List Char} {c : Char} {rest : List Char},
      l.dropWhile p = c :: rest → p c = false := by
  intro l
  induction l with
  | nil => intro c rest h; simp [List.dropWhile] at h
  | cons a as ih =>
    intro c rest h
    by_cases hpa : p a
    · rw [List.dropWhile_cons_of_pos hpa] at h
      exact ih h
    · rw [List.dropWhile_cons_of_neg hpa] at h
      cases h
      simpa using hpa

theorem scanStarsF_isSome :
    ∀ (fuel : Nat) (l : List Char) (acc : List Int),
      l.length < fuel → (scanStarsF fuel l acc).isSome = true := by
  intro fuel
  induction fuel with
  | zero => intro l acc h; exact absurd h (Nat.not_lt_zero _)
  | succ f ih =>
    intro l acc h
    match l with
    | [] => rfl
    | c :: rest =>
      rw [scanStarsF.eq_def]
      dsimp only
      by_cases hc : c = '*'
      · rw [if_pos hc]
        apply ih
        have h2 : (rest.dropWhile fun ch => ¬(ch = '*' ∨ ch = '+' ∨ ch = '|')).length ≤
            rest.length := (List.dropWhile_sublist _).length_le
        simp only [List.length_cons] at h
        omega
      · rw [if_neg hc]; rfl

theorem scanStarsF_rest :
    ∀ (fuel : Nat) (l : List Char) (acc a : List Int) (r : List Char),
      scanStarsF fuel l acc = some (a, r) →
        r.length ≤ l.length ∧ ∀ x ∈ r, x ∈ l := by
  intro fuel
  induction fuel with
  | zero => intro l acc a r h; simp [scanStarsF] at h
  | succ f ih =>
    intro l acc a r h
    match l with
    | [] =>
      rw [scanStarsF.eq_def] at h
      dsimp only at h
      cases h
      exact ⟨Nat.le_refl _, fun x hx => hx⟩
    | c :: rest =>
      rw [scanStarsF.eq_def] at h
      dsimp only at h
      by_cases hc : c = '*'
      · rw [if_pos hc] at h
        obtain ⟨hlen, hmem⟩ := ih _ _ _ _ h
        have hsub := List.dropWhile_sublist
          (fun ch => decide ¬(ch = '*' ∨ ch = '+' ∨ ch = '|')) (l := rest)
        refine ⟨?_, ?_⟩
        · have := hsub.length_le
          simp only [List.length_cons]
          omega
        · intro x hx
          exact List.mem_cons_of_mem c (hsub.subset (hmem x hx))
      · rw [if_neg hc] at h
        cases h
        exact ⟨Nat.le_refl _, fun x hx => hx⟩

theorem scanStarsF_star {fuel : Nat} {rest : List Char} {acc a : List Int} {r : List Char}
    (h : scanStarsF fuel ('*' :: rest) acc = some (a, r)) : r.length ≤ rest.length := by
  match fuel with
  | 0 => simp [scanStarsF] at h
  | f + 1 =>
    rw [scanStarsF.eq_def] at h
    dsimp only at h
    rw [if_pos rfl] at h
    have := (scanStarsF_rest _ _ _ _ _ h).1
    have hsub : (rest.dropWhile fun ch => ¬(ch = '*' ∨ ch = '+' ∨ ch = '|')).length ≤
        rest.length := (List.dropWhile_sublist _).length_le
    omega

theorem scanCount_sound (l : List Char) :
    (scanCount l).2.length ≤ l.length ∧ ∀ x ∈ (scanCount l).2, x ∈ l := by
  match l with
  | [] => exact ⟨Nat.le_refl _, by simp [scanCount]⟩
  | c :: rest =>
    rw [scanCount.eq_def]
    dsimp only
    by_cases hc : c = '+'
    · rw [if_pos hc]
      have hsub := List.dropWhile_sublist
        (fun ch => decide ¬(ch = '|' ∨ ch = '*' ∨ ch = '+')) (l := rest)
      refine ⟨?_, ?_⟩
      · have := hsub.length_le
        simp only [List.length_cons]
        omega
      · intro x hx
        exact List.mem_cons_of_mem c (hsub.subset hx)
    · rw [if_neg hc]
      exact ⟨Nat.le_refl _, fun x hx => hx⟩

theorem scanCount_plus (rest : List Char) :
    (scanCount ('+' :: rest)).2.length ≤ rest.length := by
  rw [scanCount.eq_def]
  dsimp only
  rw [if_pos rfl]
  exact (List.dropWhile_sublist _).length_le

theorem scanBreaks_sound (l : List Char) :
    (scanBreaks l).2.length ≤ l.length ∧ ∀ x ∈ (scanBreaks l).2, x ∈ l := by
  match l with
  | [] => exact ⟨Nat.le_refl _, by simp [scanBreaks]⟩
  | c :: rest =>
    rw [scanBreaks.eq_def]
    dsimp only
    by_cases hc : c = '|'
    · rw [if_pos hc]
      have hsub := List.dropWhile_sublist
        (fun ch => decide ¬(ch = '*' ∨ ch = '+')) (l := rest)
      refine ⟨?_, ?_⟩
      · have := hsub.length_le
        simp only [List.length_cons]
        omega
      · intro x hx
        exact List.mem_cons_of_mem c (hsub.subset hx)
    · rw [if_neg hc]
      exact ⟨Nat.le_refl _, fun x hx => hx⟩

theorem pyIntBase36_nonneg {l : List Char} {v : Int}
    (h : pyIntBase36 l = some v) (hm : ∀ c ∈ l, c ≠ '-') : 0 ≤ v := by
  unfold pyIntBase36 at h
  cases hstrip : stripSpaces l with
  | nil => rw [hstrip] at h; simp at h
  | cons c rest =>
    rw [hstrip] at h
    dsimp only at h
    have hcl : c ∈ l := stripSpaces_subset c (by rw [hstrip]; exact List.mem_cons_self c rest)
    have hcminus : c ≠ '-' := hm c hcl
    by_cases hp : c = '+'
    · rw [if_pos hp] at h
      cases hd : digitsPart rest with
      | none => rw [hd] at h; simp at h
      | some n =>
        rw [hd] at h
        dsimp only at h
        cases h
        exact Int.ofNat_nonneg n
    · rw [if_neg hp, if_neg hcminus] at h
      cases hd : digitsPart (c :: rest) with
      | none => rw [hd] at h; simp at h
      | some n =>
        rw [hd] at h
        dsimp only at h
        cases h
        exact Int.ofNat_nonneg n

theorem scanCount_nonneg {l : List Char} (hm : ∀ c ∈ l, c ≠ '-') :
    0 ≤ (scanCount l).1 := by
  match l with
  | [] => simp [scanCount]
  | c :: rest =>
    rw [scanCount.eq_def]
    dsimp only
    by_cases hc : c = '+'
    · rw [if_pos hc]
      by_cases he : (rest.takeWhile fun ch => ¬(ch = '|' ∨ ch = '*' ∨ ch = '+')).isEmpty
      · rw [if_pos he]
      · rw [if_neg he]
        cases hres : pyIntBase36 (rest.takeWhile fun ch => ¬(ch = '|' ∨ ch = '*' ∨ ch = '+')) with
        | none => simp
        | some v =>
          simp only [Option.getD_some]
          refine pyIntBase36_nonneg hres ?_
          intro x hx
          exact hm x (List.mem_cons_of_mem c ((List.takeWhile_sublist _).subset hx))
    · rw [if_neg hc]

theorem scanBreaks_nonneg {l : List Char} (hm : ∀ c ∈ l, c ≠ '-') :
    0 ≤ (scanBreaks l).1 := by
  match l with
  | [] => simp [scanBreaks]
  | c :: rest =>
    rw [scanBreaks.eq_def]
    dsimp only
    by_cases hc : c = '|'
    · rw [if_pos hc]
      by_cases he : (rest.takeWhile fun ch => ¬(ch = '*' ∨ ch = '+')).isEmpty
      · rw [if_pos he]
      · rw [if_neg he]
        cases hres : pyIntBase36 (rest.takeWhile fun ch => ¬(ch = '*' ∨ ch = '+')) with
        | none => simp
        | some v =>
          simp only [Option.getD_some]
          refine pyIntBase36_nonneg hres ?_
          intro x hx
          exact hm x (List.mem_cons_of_mem c ((List.takeWhile_sublist _).subset hx))
    · rw [if_neg hc]

theorem mkAttributeChunk_ok {a : List Int} {nc nb : Int} {ch : AttributeChunk}
    (h : mkAttributeChunk a nc nb = .ok ch) :
    ch = ⟨a, nc, nb⟩ ∧ 0 ≤ nc ∧ 0 ≤ nb := by
  unfold mkAttributeChunk at h
  by_cases h1 : nc < 0
  · rw [if_pos h1] at h; exact absurd h (by simp)
  · rw [if_neg h1] at h
    by_cases h2 : nb < 0
    · rw [if_pos h2] at h; exact absurd h (by simp)
    · rw [if_neg h2] at h
      cases h
      exact ⟨rfl, by omega, by omega⟩

theorem parseLoopF_ok :
    ∀ (fuel : Nat) (l : List Char), l.length < fuel → (∀ c ∈ l, c ≠ '-') →
      exceptIsOk (parseChunksLoopF fuel l) = true := by
  intro fuel
  induction fuel with
  | zero => intro l h _; exact absurd h (Nat.not_lt_zero _)
  | succ f ih =>
    intro l hlen hm
    rw [parseChunksLoopF.eq_def]
    dsimp only
    by_cases hemp : (l.dropWhile fun c => ¬(c = '*' ∨ c = '+')).isEmpty
    · rw [if_pos hemp]; rfl
    · rw [if_neg hemp]
      have hl1sub : List.Sublist (l.dropWhile fun c => ¬(c = '*' ∨ c = '+')) l :=
        List.dropWhile_sublist _
      cases hl1 : l.dropWhile fun c => ¬(c = '*' ∨ c = '+') with
      | nil => rw [hl1] at hemp; simp at hemp
      | cons c rest =>
        have hcstar : c = '*' ∨ c = '+' := by
          have h2 := dropWhile_head_false hl1
          simp only [decide_eq_false_iff_not] at h2
          exact not_not.mp h2
        have hl1len : rest.length + 1 ≤ l.length := by
          have := hl1sub.length_le
          rw [hl1] at this
          simpa using this
        have hl1mem : ∀ x ∈ c :: rest, x ∈ l := by
          intro x hx
          exact hl1sub.subset (hl1 ▸ hx)
        have hscan : ((scanStarsF ((c :: rest).length + 1) (c :: rest) []).isSome) = true :=
          scanStarsF_isSome _ _ _ (by simp)
        cases hsc : scanStarsF ((c :: rest).length + 1) (c :: rest) [] with
        | none => rw [hsc] at hscan; simp at hscan
        | some pr =>
          obtain ⟨attrs, l2⟩ := pr
          dsimp only
          have hl2 : l2.length ≤ (c :: rest).length ∧ ∀ x ∈ l2, x ∈ c :: rest :=
            scanStarsF_rest _ _ _ _ _ hsc
          have hl2mem : ∀ x ∈ l2, x ∈ l := fun x hx => hl1mem x (hl2.2 x hx)
          have hl3 := scanCount_sound l2
          have hl4 := scanBreaks_sound (scanCount l2).2
          have hl3mem : ∀ x ∈ (scanCount l2).2, x ∈ l := fun x hx => hl2mem x (hl3.2 x hx)
          have hl4mem : ∀ x ∈ (scanBreaks (scanCount l2).2).2, x ∈ l :=
            fun x hx => hl3mem x (hl4.2 x hx)
          have hnc : 0 ≤ (scanCount l2).1 :=
            scanCount_nonneg (fun x hx => hm x (hl2mem x hx))
          have hnb : 0 ≤ (scanBreaks (scanCount l2).2).1 :=
            scanBreaks_nonneg (fun x hx => hm x (hl3mem x hx))
          -- progress: the tail handed to the recursive call is shorter than l
          have hprog : (scanBreaks (scanCount l2).2).2.length < l.length := by
            rcases hcstar with hcs | hcs
            · subst hcs
              have h1 : l2.length ≤ rest.length := scanStarsF_star hsc
              omega
            · subst hcs
              have h1 : (scanCount l2).2.length ≤ rest.length := by
                have : l2 = '+' :: rest := by
                  rw [scanStarsF.eq_def] at hsc
                  dsimp only at hsc
                  rw [if_neg (by decide)] at hsc
                  cases hsc
                  rfl
                rw [this]
                exact scanCount_plus rest
              omega
          have hrec : exceptIsOk (parseChunksLoopF f (scanBreaks (scanCount l2).2).2) = true :=
            ih _ (by omega) (fun x hx => hm x (hl4mem x hx))
          by_cases hcond : (scanCount l2).1 > 0 ∨ (scanBreaks (scanCount l2).2).1 > 0
          · rw [if_pos hcond]
            cases hmk : mkAttributeChunk attrs (scanCount l2).1 (scanBreaks (scanCount l2).2).1 with
            | error e =>
              exfalso
              unfold mkAttributeChunk at hmk
              rw [if_neg (by omega), if_neg (by omega)] at hmk
              exact absurd hmk (by simp)
            | ok ch =>
              cases hrecv : parseChunksLoopF f (scanBreaks (scanCount l2).2).2 with
              | error e => rw [hrecv] at hrec; simp [exceptIsOk] at hrec
              | ok chunks => rfl
          · rw [if_neg hcond]
            exact hrec

theorem parseLoopF_chunks_nonneg :
    ∀ (fuel : Nat) (l : List Char) (chunks : List AttributeChunk),
      parseChunksLoopF fuel l = .ok chunks →
        ∀ ch ∈ chunks, 0 ≤ ch.num_characters ∧ 0 ≤ ch.num_linebreaks := by
  intro fuel
  induction fuel with
  | zero => intro l chunks h; simp [parseChunksLoopF] at h
  | succ f ih =>
    intro l chunks h
    rw [parseChunksLoopF.eq_def] at h
    dsimp only at h
    by_cases hemp : (l.dropWhile fun c => ¬(c = '*' ∨ c = '+')).isEmpty
    · rw [if_pos hemp] at h
      cases h
      intro ch hch
      exact absurd hch (List.not_mem_nil ch)
    · rw [if_neg hemp] at h
      cases hsc : scanStarsF ((l.dropWhile fun c => ¬(c = '*' ∨ c = '+')).length + 1)
          (l.dropWhile fun c => ¬(c = '*' ∨ c = '+')) [] with
      | none => rw [hsc] at h; exact absurd h (by simp)
      | some pr =>
        obtain ⟨attrs, l2⟩ := pr
        rw [hsc] at h
        dsimp only at h
        by_cases hcond : (scanCount l2).1 > 0 ∨ (scanBreaks (scanCount l2).2).1 > 0
        · rw [if_pos hcond] at h
          cases hmk : mkAttributeChunk attrs (scanCount l2).1 (scanBreaks (scanCount l2).2).1 with
          | error e => rw [hmk] at h; exact absurd h (by simp)
          | ok ch0 =>
            rw [hmk] at h
            dsimp only at h
            cases hrecv : parseChunksLoopF f (scanBreaks (scanCount l2).2).2 with
            | error e => rw [hrecv] at h; exact absurd h (by simp)
            | ok chunks0 =>
              rw [hrecv] at h
              dsimp only at h
              cases h
              intro ch hch
              rcases List.mem_cons.mp hch with rfl | hch'
              · obtain ⟨heq, hnc, hnb⟩ := mkAttributeChunk_ok hmk
                subst heq
                exact ⟨hnc, hnb⟩
              · exact ih _ _ hrecv ch hch'
        · rw [if_neg hcond] at h
          exact ih _ _ h

theorem extractAux_bounds (text : List Char) (pool : Pool) :
    ∀ (chunks : List AttributeChunk) (pos : Int),
      (∀ ch ∈ chunks, 0 ≤ ch.num_characters ∧ 0 ≤ ch.num_linebreaks) →
      0 ≤ pos → pos ≤ (text.length : Int) →
      0 ≤ (extractAux text pool chunks pos).2 ∧
        (extractAux text pool chunks pos).2 ≤ (text.length : Int) := by
  intro chunks
  induction chunks with
  | nil => intro pos _ h0 h1; exact ⟨h0, h1⟩
  | cons ch rest ih =>
    intro pos hall h0 h1
    have hch := hall ch (List.mem_cons_self ch rest)
    have hend : 0 ≤ chunkEndPos (text.length : Int) pos ch ∧
        chunkEndPos (text.length : Int) pos ch ≤ (text.length : Int) := by
      unfold chunkEndPos
      by_cases hc : ch.num_characters > 0
      · rw [if_pos hc]
        constructor
        · exact le_min (by omega) (by omega)
        · exact min_le_right _ _
      · rw [if_neg hc]
        exact ⟨h0, h1⟩
    have hnext : 0 ≤ chunkNextPos (text.length : Int) pos ch ∧
        chunkNextPos (text.length : Int) pos ch ≤ (text.length : Int) := by
      unfold chunkNextPos
      by_cases hb : ch.num_linebreaks > 0
      · rw [if_pos hb]
        constructor
        · exact le_min (by omega) (by omega)
        · exact min_le_right _ _
      · rw [if_neg hb]
        exact hend
    have := ih (chunkNextPos (text.length : Int) pos ch)
      (fun c hc => hall c (List.mem_cons_of_mem ch hc)) hnext.1 hnext.2
    simpa [extractAux] using this

/-- The spec's round-trip attribute string parses to the two expected chunks
(`+2` after `|1` opens a new chunk).  Shared by several claims. -/
theorem parse_example :
    parse_attribute_string "*0+5|1+2" = .ok [⟨[0], 5, 1⟩, ⟨[], 2, 0⟩] := rfl

/-- C3 (counterexample).  The claim says no malformed numeric field aborts the
parse; but `"+-1|1"` has the malformed count field `-1` (Python's `int`
accepts the sign, yielding a negative count) and `parse_attribute_string`
aborts with the `AttributeChunk` validation error. -/
theorem C3_parse_aborts_on_negative_count :
    parse_attribute_string "+-1|1" = .error "num_characters must be non-negative" := rfl

/-- C3 (amended).  For every input string not containing `'-'`,
`parse_attribute_string` completes and returns a chunk list; numeric fields
that fail to decode are treated as zero.  (A field that decodes to a negative
number — only possible via a `'-'` sign — can instead abort the parse through
chunk validation, as the counterexample shows.) -/
theorem C3_parse_tolerates_malformed_fields (s : String) (h : '-' ∉ s.data) :
    exceptIsOk (parse_attribute_string s) = true := by
  unfold parse_attribute_string
  by_cases he : s.data.isEmpty
  · rw [if_pos he]; rfl
  · rw [if_neg he]
    refine parseLoopF_ok _ _ (Nat.lt_succ_self _) ?_
    intro c hc hceq
    exact h (hceq ▸ hc)

/-- Witness for C3's amended theorem: a parse with an undecodable count field
(`?`) completes, treating the field as zero. -/
theorem C3_parse_tolerates_witness :
    exceptIsOk (parse_attribute_string "+?|1") = true :=
  C3_parse_tolerates_malformed_fields "+?|1" (by decide)

/-- C4 (confirmed).  For chunks produced by `parse_attribute_string`, the
extraction cursor starts at 0, stays within `[0, len(text)]` after every
chunk prefix (both the character take and the linebreak advance are clamped
by `min` to the text length), and the chunk counts are non-negative, for
every source text — including adversarially short ones. -/
theorem C4_extract_never_out_of_bounds (s : String) (chunks : List AttributeChunk)
    (h : parse_attribute_string s = .ok chunks) (text : List Char) (pool : Pool) :
    (∀ ch ∈ chunks, 0 ≤ ch.num_characters ∧ 0 ≤ ch.num_linebreaks) ∧
    (∀ n : Nat, 0 ≤ (extractAux text pool (chunks.take n) 0).2 ∧
      (extractAux text pool (chunks.take n) 0).2 ≤ (text.length : Int)) ∧
    extract_text_spans text chunks pool = (extractAux text pool chunks 0).1 := by
  have hnn : ∀ ch ∈ chunks, 0 ≤ ch.num_characters ∧ 0 ≤ ch.num_linebreaks := by
    unfold parse_attribute_string at h
    by_cases he : s.data.isEmpty
    · rw [if_pos he] at h
      cases h
      intro ch hch
      exact absurd hch (List.not_mem_nil ch)
    · rw [if_neg he] at h
      exact parseLoopF_chunks_nonneg _ _ _ h
  refine ⟨hnn, ?_, rfl⟩
  intro n
  refine extractAux_bounds text pool (chunks.take n) 0 ?_ le_rfl (by simp)
  intro ch hch
  exact hnn ch ((List.take_sublist n chunks).subset hch)

/-- Witness for C4 at a concrete parse and an adversarially short text. -/
theorem C4_extract_witness :
    0 ≤ (extractAux "Hi".data none ([⟨[0], 5, 1⟩, ⟨[], 2, 0⟩].take 1) 0).2 ∧
    (extractAux "Hi".data none ([⟨[0], 5, 1⟩, ⟨[], 2, 0⟩].take 1) 0).2 ≤
      ("Hi".data.length : Int) :=
  (C4_extract_never_out_of_bounds "*0+5|1+2" [⟨[0], 5, 1⟩, ⟨[], 2, 0⟩] parse_example
    "Hi".data none).2.1 1

/-- C5 (counterexample).  The claim's expected decoding of `"*0+5|1+2"`
against `"Helloworld"` ends with the span `("wo", [])`; the code's cursor
sits at 6 after the linebreak consumed the `'w'` at index 5, so the last
span is `text[6:8] = "or"`, not `"wo"`. -/
theorem C5_roundtrip_claim_false :
    extract_text_spans "Helloworld".data [⟨[0], 5, 1⟩, ⟨[], 2, 0⟩]
        (some [(0, ["bold", "true"])]) ≠
      [("Hello".data, [("bold", "true")]), ("\n".data, []), ("wo".data, [])] := by
  decide

/-- C5 (amended).  `"*0+5|1+2"` parses to chunks `{0}/5 chars/1 break` then
`2 chars`, and decoding against `"Helloworld"` with pool `{0: [bold, true]}`
yields `[("Hello", [(bold, true)]), ("\n", []), ("or", [])]`: the cursor
advances by 5, then by 1 for the linebreak (consuming the `'w'`), then by 2
— and the trailing `+2` after `|1` starts a new chunk rather than being
consumed by the linebreak field. -/
theorem C5_roundtrip_decode :
    parse_attribute_string "*0+5|1+2" = .ok [⟨[0], 5, 1⟩, ⟨[], 2, 0⟩] ∧
    extract_text_spans "Helloworld".data [⟨[0], 5, 1⟩, ⟨[], 2, 0⟩]
        (some [(0, ["bold", "true"])]) =
      [("Hello".data, [("bold", "true")]), ("\n".data, []), ("or".data, [])] :=
  ⟨parse_example, by decide⟩

/-- C6 (confirmed).  `resolve_attributes` is insensitive to the iteration
order of its index set, and its result is the pool lookup mapped over a
strictly ascending list containing exactly the given indices (absent and
malformed pool entries are skipped by `resolveIndex`). -/
theorem C6_resolve_attributes_sorted (l₁ l₂ : List Int) (m : List (Int × List String))
    (hp : l₁.Perm l₂) :
    resolve_attributes l₁ (some m) = resolve_attributes l₂ (some m) ∧
    List.Sorted (· < ·) (sortedIndices l₁) ∧
    (∀ i : Int, i ∈ sortedIndices l₁ ↔ i ∈ l₁) ∧
    resolve_attributes l₁ (some m) = (sortedIndices l₁).filterMap (resolveIndex m) := by
  have hsortEq : sortedIndices l₁ = sortedIndices l₂ := by
    have hperm : (sortedIndices l₁).Perm (sortedIndices l₂) :=
      ((List.perm_insertionSort _ _).trans hp.dedup).trans
        (List.perm_insertionSort _ _).symm
    exact List.eq_of_perm_of_sorted hperm
      (List.sorted_insertionSort _ _) (List.sorted_insertionSort _ _)
  refine ⟨?_, ?_, ?_, rfl⟩
  · unfold resolve_attributes
    rw [hsortEq]
  · refine List.Sorted.lt_of_le (List.sorted_insertionSort _ _) ?_
    exact (List.perm_insertionSort _ _).nodup_iff.mpr (List.nodup_dedup l₁)
  · intro i
    unfold sortedIndices
    rw [List.mem_insertionSort, List.mem_dedup]

/-- Witness for C6 at the spec's example: indices `{5,0,2}` in two iteration
orders resolve identically and in ascending index order. -/
theorem C6_resolve_attributes_witness :
    resolve_attributes [5, 0, 2] (some examplePool) =
      resolve_attributes [2, 5, 0] (some examplePool) ∧
    resolve_attributes [5, 0, 2] (some examplePool) =
      [("bold", "true"), ("italic", "true"), ("underline", "true")] :=
  ⟨(C6_resolve_attributes_sorted [5, 0, 2] [2, 5, 0] examplePool (by decide)).1, by decide⟩

/-- C1 (counterexample).  The claim says the Markdown renderer outputs
`![alt](url)` for image blocks; for an image block with URL and alt text it
outputs the empty string (the dispatch has no image case and falls back to
the paragraph path over the empty content list). -/
theorem C1_markdown_image_not_rendered :
    convertBlockMd exampleImageBlock = "" ∧
    convertBlockMd exampleImageBlock ≠ "![diagram](https://example.com/d.png)" :=
  ⟨rfl, by decide⟩

/-- C1 (amended).  The Markdown renderer has no image case: every block of
kind image is rendered through the paragraph fallback, i.e. as its content
spans only — `image_url`, `image_alt` and `image_title` are ignored.  (Only
the plain-text renderer renders images.) -/
theorem C1_markdown_image_as_paragraph (b : Block) (h : b.type = BlockType.image) :
    convertBlockMd b = convertTextSpansMd b.content true := by
  unfold convertBlockMd
  rw [h]
  rw [if_neg (by decide), if_neg (by decide), if_neg (by decide), if_neg (by decide),
      if_neg (by decide), if_neg (by decide), if_neg (by decide)]

/-- Witness for C1's amended theorem at the concrete image block. -/
theorem C1_markdown_image_witness :
    convertBlockMd exampleImageBlock = convertTextSpansMd exampleImageBlock.content true :=
  C1_markdown_image_as_paragraph exampleImageBlock rfl

/-- C7 (confirmed).  A heading block renders in plain text as its rendered
text, a newline, and an underline whose length equals the rendered text's
length exactly, drawn with `=` for level 1, `-` for level 2 and `~` for
level 3. -/
theorem C7_plaintext_heading_underline (b : Block) (lvl : Int)
    (hty : b.type = BlockType.heading) (hlv : b.heading_level = some lvl)
    (h1 : 1 ≤ lvl) (h3 : lvl ≤ 3) :
    convertBlockPt b =
      convertTextSpansPt b.content ++ "\n" ++
        (⟨List.replicate (convertTextSpansPt b.content).length
          (if lvl = 1 then '=' else if lvl = 2 then '-' else '~')⟩ : String) ∧
    ((⟨List.replicate (convertTextSpansPt b.content).length
        (if lvl = 1 then '=' else if lvl = 2 then '-' else '~')⟩ : String)).length =
      (convertTextSpansPt b.content).length := by
  constructor
  · have hne : ¬lvl = 0 := by omega
    unfold convertBlockPt
    rw [hty]
    rw [if_neg (by decide), if_pos rfl]
    unfold convertHeadingPt
    rw [hlv]
    unfold levelOr1
    dsimp only
    rw [if_neg hne]
    by_cases hl1 : lvl = 1
    · simp [hl1]
    · by_cases hl2 : lvl = 2
      · simp [hl1, hl2]
      · simp [hl1, hl2]
  · show (List.replicate (convertTextSpansPt b.content).length _).length = _
    exact List.length_replicate _ _

/-- Witness for C7: the level-2 heading `"Sub"` renders as `Sub` over a
3-character `-` underline. -/
theorem C7_plaintext_heading_witness :
    convertBlockPt exampleSubHeading = "Sub" ++ "\n" ++ "---" ∧
    ("---" : String).length = ("Sub" : String).length := by
  have h := C7_plaintext_heading_underline exampleSubHeading 2 rfl rfl (by decide) (by decide)
  exact ⟨by rw [h.1]; decide, by decide⟩

/-- C8 (confirmed).  Detection of `{"atext": {"text": "x"}}` fails with a
format error naming the missing key `attribs`, and detection of
`{"doc": {"type": "paragraph"}}` fails with a format error naming the
expected type `'doc'`; in both cases no `FormatType` is produced, so neither
parser is ever selected. -/
theorem C8_detect_format_errors :
    detect_format exampleAtextMissing =
        .error "Old format missing required keys: \x7b'attribs'\x7d" ∧
    pyInStr "attribs" "Old format missing required keys: \x7b'attribs'\x7d" = true ∧
    detect_format exampleDocWrongType =
        .error "New format 'doc.type' must be 'doc', got paragraph" ∧
    pyInStr "'doc'" "New format 'doc.type' must be 'doc', got paragraph" = true :=
  ⟨rfl, by decide, rfl, by decide⟩

theorem createBlock_some {t : BlockType} {c : List TextSpan}
    {a : List (String × String)} {b : Block} (h : createBlock t c a = some b) :
    ¬c.isEmpty ∧ b.type = t ∧ b.children = [] ∧
      (t = BlockType.list → b.content = []) ∧
      (t ≠ BlockType.list → b.content = c) := by
  unfold createBlock at h
  by_cases hemp : c.isEmpty
  · rw [if_pos hemp] at h
    exact absurd h (by simp)
  · rw [if_neg hemp] at h
    by_cases hh : t = BlockType.heading
    · rw [if_pos hh] at h
      cases h
      subst hh
      exact ⟨hemp, rfl, rfl, fun hl => absurd hl (by decide), fun _ => rfl⟩
    · rw [if_neg hh] at h
      by_cases hl : t = BlockType.list
      · rw [if_pos hl] at h
        cases h
        subst hl
        exact ⟨hemp, rfl, rfl, fun _ => rfl, fun hne => absurd rfl hne⟩
      · rw [if_neg hl] at h
        cases h
        exact ⟨hemp, rfl, rfl, fun heq => absurd heq hl, fun _ => rfl⟩

theorem emitBlock_sound (P : Block → Prop)
    (hP : ∀ (t : BlockType) (c : List TextSpan) (a : List (String × String)) (b : Block),
      createBlock t c a = some b → (∀ s ∈ c, s.text ≠ "") → P b)
    {blocks : List Block} {t : BlockType} {cur : List TextSpan}
    {attrs : List (String × String)}
    (hblocks : ∀ b ∈ blocks, P b) (hcur : ∀ s ∈ cur, s.text ≠ "") :
    ∀ b ∈ emitBlock blocks t cur attrs, P b := by
  intro b hb
  unfold emitBlock at hb
  cases hcb : createBlock t cur attrs with
  | none => rw [hcb] at hb; exact hblocks b hb
  | some b' =>
    rw [hcb] at hb
    rcases List.mem_append.mp hb with hb' | hb'
    · exact hblocks b hb'
    · rw [List.mem_singleton.mp hb']
      exact hP _ _ _ _ hcb hcur

theorem strMk_ne_empty {l : List Char} (h : l ≠ []) : (⟨l⟩ : String) ≠ "" := by
  intro heq
  apply h
  have : (⟨l⟩ : String).data = ("" : String).data := by rw [heq]
  simpa using this

theorem spansLoop_sound (P : Block → Prop)
    (hP : ∀ (t : BlockType) (c : List TextSpan) (a : List (String × String)) (b : Block),
      createBlock t c a = some b → (∀ s ∈ c, s.text ≠ "") → P b) :
    ∀ (spans : List (List Char × List (String × String))) (blocks : List Block)
      (cur : List TextSpan) (curType : BlockType) (curAttrs : List (String × String)),
      (∀ b ∈ blocks, P b) → (∀ s ∈ cur, s.text ≠ "") →
      ∀ b ∈ spansLoop spans blocks cur curType curAttrs, P b := by
  intro spans
  induction spans with
  | nil =>
    intro blocks cur curType curAttrs hblocks hcur b hb
    rw [spansLoop.eq_def] at hb
    dsimp only at hb
    by_cases he : cur.isEmpty
    · rw [if_pos he] at hb
      exact hblocks b hb
    · rw [if_neg he] at hb
      exact emitBlock_sound P hP hblocks hcur b hb
  | cons sp rest ih =>
    obtain ⟨textContent, attributes⟩ := sp
    intro blocks cur curType curAttrs hblocks hcur b hb
    rw [spansLoop.eq_def] at hb
    dsimp only at hb
    by_cases hnl : startsWithNewline textContent
    · rw [if_pos hnl] at hb
      refine ih _ _ _ _ ?_ ?_ b hb
      · by_cases he : cur.isEmpty
        · rw [if_pos he]; exact hblocks
        · rw [if_neg he]; exact emitBlock_sound P hP hblocks hcur
      · by_cases hlen : 1 < textContent.length
        · rw [if_pos hlen]
          by_cases hrem : textContent.tail.isEmpty
          · rw [if_pos hrem]
            intro s hs
            exact absurd hs (List.not_mem_nil s)
          · rw [if_neg hrem]
            intro s hs
            rw [List.mem_singleton.mp hs]
            exact strMk_ne_empty (by simpa using hrem)
        · rw [if_neg hlen]
          intro s hs
          exact absurd hs (List.not_mem_nil s)
    · rw [if_neg hnl] at hb
      refine ih _ _ _ _ ?_ ?_ b hb
      · by_cases hch : (¬attributes.isEmpty &&
            decide (detectBlockTypeOld attributes ≠ curType) && ¬cur.isEmpty : Bool)
        · rw [if_pos hch]; exact emitBlock_sound P hP hblocks hcur
        · rw [if_neg hch]; exact hblocks
      · have hcur2 : ∀ s ∈ (if (¬attributes.isEmpty &&
            decide (detectBlockTypeOld attributes ≠ curType) && ¬cur.isEmpty : Bool)
            then ([] : List TextSpan) else cur), s.text ≠ "" := by
          by_cases hch : (¬attributes.isEmpty &&
              decide (detectBlockTypeOld attributes ≠ curType) && ¬cur.isEmpty : Bool)
          · rw [if_pos hch]
            intro s hs
            exact absurd hs (List.not_mem_nil s)
          · rw [if_neg hch]
            exact hcur
        by_cases hte : textContent.isEmpty
        · rw [if_pos hte]; exact hcur2
        · rw [if_neg hte]
          intro s hs
          rcases List.mem_append.mp hs with hs' | hs'
          · exact hcur2 s hs'
          · rw [List.mem_singleton.mp hs']
            exact strMk_ne_empty (by simpa using hte)

/-- C9 (confirmed).  `_create_block` returns `None` for an empty accumulated
span list for every block type (so such candidates are never emitted), and
every list block the legacy builder emits carries no content spans and no
children — it is built from the raw attributes alone. -/
theorem C9_no_empty_blocks_and_bare_lists :
    (∀ (t : BlockType) (a : List (String × String)), createBlock t [] a = none) ∧
    (∀ (spans : List (List Char × List (String × String))) (b : Block),
      b ∈ (spansToDocument spans).blocks →
        (b.type = BlockType.list → b.content = [] ∧ b.children = []) ∧
        (b.type ≠ BlockType.list → ¬b.content.isEmpty)) := by
  constructor
  · intro t a; rfl
  · intro spans b hb
    refine spansLoop_sound
      (P := fun b => (b.type = BlockType.list → b.content = [] ∧ b.children = []) ∧
        (b.type ≠ BlockType.list → ¬b.content.isEmpty))
      ?_ spans [] [] BlockType.paragraph []
      (fun b hb' => absurd hb' (List.not_mem_nil b))
      (fun s hs => absurd hs (List.not_mem_nil s)) b hb
    intro t c a b' hcb hcur
    obtain ⟨hne, hty, hch, hlist, hnot⟩ := createBlock_some hcb
    constructor
    · intro hbl
      exact ⟨hlist (hty.symm.trans hbl), hch⟩
    · intro hbnl
      have ht : t ≠ BlockType.list := fun he => hbnl (hty.trans he)
      rw [hnot ht]
      exact hne

/-- Witness for C9: an empty heading candidate yields no block, and the list
block built from a `list=number1` run has no content and no children. -/
theorem C9_witness :
    createBlock BlockType.heading [] [] = none ∧
    (exampleListBlock.type = BlockType.list →
      exampleListBlock.content = [] ∧ exampleListBlock.children = []) ∧
    (exampleListBlock.type ≠ BlockType.list → ¬exampleListBlock.content.isEmpty) := by
  have h2 := C9_no_empty_blocks_and_bare_lists.2 [("t".data, [("list", "number1")])]
    exampleListBlock (List.mem_singleton.mpr rfl)
  exact ⟨C9_no_empty_blocks_and_bare_lists.1 BlockType.heading [], h2.1, h2.2⟩

theorem bind_ok {α β : Type} {x : Except String α} {f : α → Except String β} {b : β}
    (h : (x >>= f) = .ok b) : ∃ a, x = .ok a ∧ f a = .ok b := by
  cases x with
  | error e => simp [Bind.bind, Except.bind] at h
  | ok a => exact ⟨a, rfl, by simpa [Bind.bind, Except.bind] using h⟩

theorem map_ok {α β : Type} {f : α → β} {x : Except String α} {y : β}
    (h : (f <$> x) = .ok y) : ∃ a, x = .ok a ∧ f a = y := by
  cases x with
  | error e => simp [Functor.map, Except.map] at h
  | ok a =>
    refine ⟨a, rfl, ?_⟩
    simpa [Functor.map, Except.map] using h

theorem pure_ok {α : Type} {a b : α} (h : (pure a : Except String α) = .ok b) : a = b := by
  simpa [pure, Except.pure] using h

theorem isEmpty_false_ne {s : String} (h : ¬s.isEmpty) : s ≠ "" := by
  intro heq
  subst heq
  exact h rfl



theorem parseInlineNode_nonempty {node : JValue} {spans : List TextSpan}
    (h : parseInlineNode node = .ok spans) : ∀ s ∈ spans, s.text ≠ "" := by
  unfold parseInlineNode at h
  obtain ⟨t?, hg, h⟩ := bind_ok h
  try dsimp only at h
  split at h
  · obtain ⟨textVal, h1, h⟩ := bind_ok h
    try dsimp only at h
    obtain ⟨marksVal, h2, h⟩ := bind_ok h
    try dsimp only at h
    obtain ⟨attrs, h3, h⟩ := bind_ok h
    try dsimp only at h
    cases textVal with
    | str s' =>
      have hsp := pure_ok h
      intro s hs
      rw [← hsp] at hs
      by_cases hse : s'.isEmpty
      · rw [if_pos hse] at hs
        exact absurd hs (List.not_mem_nil s)
      · rw [if_neg hse] at hs
        rw [List.mem_singleton.mp hs]
        exact isEmpty_false_ne hse
    | num nv =>
      dsimp only at h
      by_cases htr : pyTruthy (JValue.num nv) = true
      · rw [if_pos htr] at h
        exact Except.noConfusion h
      · rw [if_neg htr] at h
        have hsp := pure_ok h
        intro s hs
        rw [← hsp] at hs
        exact absurd hs (List.not_mem_nil s)
    | bool bv =>
      dsimp only at h
      by_cases htr : pyTruthy (JValue.bool bv) = true
      · rw [if_pos htr] at h
        exact Except.noConfusion h
      · rw [if_neg htr] at h
        have hsp := pure_ok h
        intro s hs
        rw [← hsp] at hs
        exact absurd hs (List.not_mem_nil s)
    | null =>
      dsimp only at h
      by_cases htr : pyTruthy (JValue.null) = true
      · rw [if_pos htr] at h
        exact Except.noConfusion h
      · rw [if_neg htr] at h
        have hsp := pure_ok h
        intro s hs
        rw [← hsp] at hs
        exact absurd hs (List.not_mem_nil s)
    | arr es =>
      dsimp only at h
      by_cases htr : pyTruthy (JValue.arr es) = true
      · rw [if_pos htr] at h
        exact Except.noConfusion h
      · rw [if_neg htr] at h
        have hsp := pure_ok h
        intro s hs
        rw [← hsp] at hs
        exact absurd hs (List.not_mem_nil s)
    | obj fs =>
      dsimp only at h
      by_cases htr : pyTruthy (JValue.obj fs) = true
      · rw [if_pos htr] at h
        exact Except.noConfusion h
      · rw [if_neg htr] at h
        have hsp := pure_ok h
        intro s hs
        rw [← hsp] at hs
        exact absurd hs (List.not_mem_nil s)
  · split at h
    · have hsp := pure_ok h
      intro s hs
      rw [← hsp] at hs
      rw [List.mem_singleton.mp hs]
      decide
    · have hsp := pure_ok h
      intro s hs
      rw [← hsp] at hs
      exact absurd hs (List.not_mem_nil s)

theorem parseInlineNodes_nonempty :
    ∀ {nodes : List JValue} {spans : List TextSpan},
      parseInlineNodes nodes = .ok spans → ∀ s ∈ spans, s.text ≠ "" := by
  intro nodes
  induction nodes with
  | nil =>
    intro spans h s hs
    rw [parseInlineNodes] at h
    cases h
    exact absurd hs (List.not_mem_nil s)
  | cons node rest ih =>
    intro spans h s hs
    rw [parseInlineNodes.eq_def] at h
    dsimp only at h
    obtain ⟨headSpans, hh, h⟩ := bind_ok h
    try dsimp only at h
    obtain ⟨tailSpans, ht, h⟩ := bind_ok h
    try dsimp only at h
    have hsp := pure_ok h
    rcases List.mem_append.mp (hsp ▸ hs) with hs' | hs'
    · exact parseInlineNode_nonempty hh s hs'
    · exact ih ht s hs'

theorem parseInlineContent_nonempty {contentVal : JValue} {spans : List TextSpan}
    (h : parseInlineContent contentVal = .ok spans) : ∀ s ∈ spans, s.text ≠ "" := by
  unfold parseInlineContent at h
  obtain ⟨nodes, h1, h⟩ := bind_ok h
  exact parseInlineNodes_nonempty h

theorem itemParagraphNode_nonempty {cn : JValue} {spans : List TextSpan}
    (h : itemParagraphNode cn = .ok spans) : ∀ s ∈ spans, s.text ≠ "" := by
  unfold itemParagraphNode at h
  obtain ⟨t?, hg, h⟩ := bind_ok h
  try dsimp only at h
  split at h
  · obtain ⟨cv, h1, h⟩ := bind_ok h
    exact parseInlineContent_nonempty h
  · have hsp := pure_ok h
    intro s hs
    rw [← hsp] at hs
    exact absurd hs (List.not_mem_nil s)

theorem itemParagraphsFold_nonempty :
    ∀ {contentNodes : List JValue} {spans : List TextSpan},
      itemParagraphsFold contentNodes = .ok spans → ∀ s ∈ spans, s.text ≠ "" := by
  intro contentNodes
  induction contentNodes with
  | nil =>
    intro spans h s hs
    rw [itemParagraphsFold] at h
    cases h
    exact absurd hs (List.not_mem_nil s)
  | cons cn rest ih =>
    intro spans h s hs
    rw [itemParagraphsFold.eq_def] at h
    dsimp only at h
    obtain ⟨headSpans, hh, h⟩ := bind_ok h
    try dsimp only at h
    obtain ⟨tailSpans, ht, h⟩ := bind_ok h
    try dsimp only at h
    have hsp := pure_ok h
    rcases List.mem_append.mp (hsp ▸ hs) with hs' | hs'
    · exact itemParagraphNode_nonempty hh s hs'
    · exact ih ht s hs'

theorem basic_allSpans {t : BlockType} {c : List TextSpan} {attrs : JValue}
    (h : ∀ s ∈ c, s.text ≠ "") : AllSpansNonempty (Block.basic t c attrs) :=
  AllSpansNonempty.intro h (fun ch hch => absurd hch (List.not_mem_nil ch))

theorem parseParagraph_allSpans {node : JValue} {b : Block}
    (h : parseParagraph node = .ok b) : AllSpansNonempty b := by
  unfold parseParagraph at h
  obtain ⟨cv, h1, h⟩ := bind_ok h
  try dsimp only at h
  obtain ⟨content, h2, h⟩ := bind_ok h
  try dsimp only at h
  obtain ⟨attrs, h3, h⟩ := bind_ok h
  try dsimp only at h
  rw [← pure_ok h]
  exact basic_allSpans (parseInlineContent_nonempty h2)

theorem parseHeading_allSpans {node : JValue} {b : Block}
    (h : parseHeading node = .ok b) : AllSpansNonempty b := by
  unfold parseHeading at h
  obtain ⟨cv, h1, h⟩ := bind_ok h
  try dsimp only at h
  obtain ⟨content, h2, h⟩ := bind_ok h
  try dsimp only at h
  obtain ⟨attrs, h3, h⟩ := bind_ok h
  try dsimp only at h
  obtain ⟨levelVal, h4, h⟩ := bind_ok h
  try dsimp only at h
  rw [← pure_ok h]
  exact AllSpansNonempty.intro (parseInlineContent_nonempty h2)
    (fun ch hch => absurd hch (List.not_mem_nil ch))

theorem parseCodeBlock_allSpans {node : JValue} {b : Block}
    (h : parseCodeBlock node = .ok b) : AllSpansNonempty b := by
  unfold parseCodeBlock at h
  obtain ⟨cv, h1, h⟩ := bind_ok h
  try dsimp only at h
  obtain ⟨content, h2, h⟩ := bind_ok h
  try dsimp only at h
  obtain ⟨attrs, h3, h⟩ := bind_ok h
  try dsimp only at h
  rw [← pure_ok h]
  exact basic_allSpans (parseInlineContent_nonempty h2)

theorem parseBlockquote_allSpans {node : JValue} {b : Block}
    (h : parseBlockquote node = .ok b) : AllSpansNonempty b := by
  unfold parseBlockquote at h
  obtain ⟨cv, h1, h⟩ := bind_ok h
  try dsimp only at h
  obtain ⟨content, h2, h⟩ := bind_ok h
  try dsimp only at h
  obtain ⟨attrs, h3, h⟩ := bind_ok h
  try dsimp only at h
  rw [← pure_ok h]
  exact basic_allSpans (parseInlineContent_nonempty h2)

theorem parseHorizontalRule_allSpans {node : JValue} {b : Block}
    (h : parseHorizontalRule node = .ok b) : AllSpansNonempty b := by
  unfold parseHorizontalRule at h
  obtain ⟨attrs, h1, h⟩ := bind_ok h
  try dsimp only at h
  rw [← pure_ok h]
  exact basic_allSpans (fun s hs => absurd hs (List.not_mem_nil s))

theorem parseListItemNode_allSpans {node : JValue} {b : Block}
    (h : parseListItemNode node = .ok b) : AllSpansNonempty b := by
  unfold parseListItemNode at h
  obtain ⟨cv, h1, h⟩ := bind_ok h
  try dsimp only at h
  obtain ⟨contentNodes, h2, h⟩ := bind_ok h
  try dsimp only at h
  obtain ⟨allContent, h3, h⟩ := bind_ok h
  try dsimp only at h
  obtain ⟨t?, h4, h⟩ := bind_ok h
  try dsimp only at h
  obtain ⟨checked, h5, h⟩ := bind_ok h
  try dsimp only at h
  obtain ⟨attrs, h6, h⟩ := bind_ok h
  try dsimp only at h
  rw [← pure_ok h]
  exact AllSpansNonempty.intro (itemParagraphsFold_nonempty h3)
    (fun ch hch => absurd hch (List.not_mem_nil ch))

theorem listChildNode_allSpans {cn : JValue} {blocks : List Block}
    (h : listChildNode cn = .ok blocks) : ∀ b ∈ blocks, AllSpansNonempty b := by
  unfold listChildNode at h
  obtain ⟨t?, hg, h⟩ := bind_ok h
  try dsimp only at h
  split at h
  · obtain ⟨b0, hb0, h⟩ := bind_ok h
    try dsimp only at h
    rw [← pure_ok h]
    intro b hb
    rw [List.mem_singleton.mp hb]
    exact parseListItemNode_allSpans hb0
  · rw [← pure_ok h]
    intro b hb
    exact absurd hb (List.not_mem_nil b)

theorem listChildrenFold_allSpans :
    ∀ {childNodes : List JValue} {blocks : List Block},
      listChildrenFold childNodes = .ok blocks → ∀ b ∈ blocks, AllSpansNonempty b := by
  intro childNodes
  induction childNodes with
  | nil =>
    intro blocks h b hb
    rw [listChildrenFold] at h
    cases h
    exact absurd hb (List.not_mem_nil b)
  | cons cn rest ih =>
    intro blocks h b hb
    rw [listChildrenFold.eq_def] at h
    dsimp only at h
    obtain ⟨head, hh, h⟩ := bind_ok h
    try dsimp only at h
    obtain ⟨tail, ht, h⟩ := bind_ok h
    try dsimp only at h
    rcases List.mem_append.mp ((pure_ok h) ▸ hb) with hb' | hb'
    · exact listChildNode_allSpans hh b hb'
    · exact ih ht b hb'

theorem parseListNode_allSpans {node : JValue} {lt : ListType} {b : Block}
    (h : parseListNode node lt = .ok b) : AllSpansNonempty b := by
  unfold parseListNode at h
  obtain ⟨cv, h1, h⟩ := bind_ok h
  try dsimp only at h
  obtain ⟨childNodes, h2, h⟩ := bind_ok h
  try dsimp only at h
  obtain ⟨children, h3, h⟩ := bind_ok h
  try dsimp only at h
  obtain ⟨attrs, h4, h⟩ := bind_ok h
  try dsimp only at h
  rw [← pure_ok h]
  exact AllSpansNonempty.intro (fun s hs => absurd hs (List.not_mem_nil s))
    (listChildrenFold_allSpans h3)

theorem parseTableCell_allSpans {node : JValue} {b : Block}
    (h : parseTableCell node = .ok b) : AllSpansNonempty b := by
  unfold parseTableCell at h
  obtain ⟨cv, h1, h⟩ := bind_ok h
  try dsimp only at h
  obtain ⟨contentNodes, h2, h⟩ := bind_ok h
  try dsimp only at h
  obtain ⟨allContent, h3, h⟩ := bind_ok h
  try dsimp only at h
  obtain ⟨attrs, h4, h⟩ := bind_ok h
  try dsimp only at h
  rw [← pure_ok h]
  exact basic_allSpans (itemParagraphsFold_nonempty h3)

theorem rowCellNode_allSpans {cn : JValue} {blocks : List Block}
    (h : rowCellNode cn = .ok blocks) : ∀ b ∈ blocks, AllSpansNonempty b := by
  unfold rowCellNode at h
  obtain ⟨t?, hg, h⟩ := bind_ok h
  try dsimp only at h
  split at h
  · obtain ⟨b0, hb0, h⟩ := bind_ok h
    try dsimp only at h
    rw [← pure_ok h]
    intro b hb
    rw [List.mem_singleton.mp hb]
    exact parseTableCell_allSpans hb0
  · rw [← pure_ok h]
    intro b hb
    exact absurd hb (List.not_mem_nil b)

theorem rowCellsFold_allSpans :
    ∀ {cellNodes : List JValue} {blocks : List Block},
      rowCellsFold cellNodes = .ok blocks → ∀ b ∈ blocks, AllSpansNonempty b := by
  intro cellNodes
  induction cellNodes with
  | nil =>
    intro blocks h b hb
    rw [rowCellsFold] at h
    cases h
    exact absurd hb (List.not_mem_nil b)
  | cons cn rest ih =>
    intro blocks h b hb
    rw [rowCellsFold.eq_def] at h
    dsimp only at h
    obtain ⟨head, hh, h⟩ := bind_ok h
    try dsimp only at h
    obtain ⟨tail, ht, h⟩ := bind_ok h
    try dsimp only at h
    rcases List.mem_append.mp ((pure_ok h) ▸ hb) with hb' | hb'
    · exact rowCellNode_allSpans hh b hb'
    · exact ih ht b hb'

theorem parseTableRow_allSpans {node : JValue} {b : Block}
    (h : parseTableRow node = .ok b) : AllSpansNonempty b := by
  unfold parseTableRow at h
  obtain ⟨cv, h1, h⟩ := bind_ok h
  try dsimp only at h
  obtain ⟨cellNodes, h2, h⟩ := bind_ok h
  try dsimp only at h
  obtain ⟨children, h3, h⟩ := bind_ok h
  try dsimp only at h
  obtain ⟨attrs, h4, h⟩ := bind_ok h
  try dsimp only at h
  rw [← pure_ok h]
  exact AllSpansNonempty.intro (fun s hs => absurd hs (List.not_mem_nil s))
    (rowCellsFold_allSpans h3)

theorem tableRowNode_allSpans {rn : JValue} {blocks : List Block}
    (h : tableRowNode rn = .ok blocks) : ∀ b ∈ blocks, AllSpansNonempty b := by
  unfold tableRowNode at h
  obtain ⟨t?, hg, h⟩ := bind_ok h
  try dsimp only at h
  split at h
  · obtain ⟨b0, hb0, h⟩ := bind_ok h
    try dsimp only at h
    rw [← pure_ok h]
    intro b hb
    rw [List.mem_singleton.mp hb]
    exact parseTableRow_allSpans hb0
  · rw [← pure_ok h]
    intro b hb
    exact absurd hb (List.not_mem_nil b)

theorem tableRowsFold_allSpans :
    ∀ {rowNodes : List JValue} {blocks : List Block},
      tableRowsFold rowNodes = .ok blocks → ∀ b ∈ blocks, AllSpansNonempty b := by
  intro rowNodes
  induction rowNodes with
  | nil =>
    intro blocks h b hb
    rw [tableRowsFold] at h
    cases h
    exact absurd hb (List.not_mem_nil b)
  | cons rn rest ih =>
    intro blocks h b hb
    rw [tableRowsFold.eq_def] at h
    dsimp only at h
    obtain ⟨head, hh, h⟩ := bind_ok h
    try dsimp only at h
    obtain ⟨tail, ht, h⟩ := bind_ok h
    try dsimp only at h
    rcases List.mem_append.mp ((pure_ok h) ▸ hb) with hb' | hb'
    · exact tableRowNode_allSpans hh b hb'
    · exact ih ht b hb'

theorem parseTable_allSpans {node : JValue} {b : Block}
    (h : parseTable node = .ok b) : AllSpansNonempty b := by
  unfold parseTable at h
  obtain ⟨cv, h1, h⟩ := bind_ok h
  try dsimp only at h
  obtain ⟨rowNodes, h2, h⟩ := bind_ok h
  try dsimp only at h
  obtain ⟨children, h3, h⟩ := bind_ok h
  try dsimp only at h
  obtain ⟨attrs, h4, h⟩ := bind_ok h
  try dsimp only at h
  rw [← pure_ok h]
  exact AllSpansNonempty.intro (fun s hs => absurd hs (List.not_mem_nil s))
    (tableRowsFold_allSpans h3)

theorem parseNode_allSpans {node : JValue} {b : Block}
    (h : parseNode node = .ok (some b)) : AllSpansNonempty b := by
  unfold parseNode at h
  obtain ⟨t?, hg, h⟩ := bind_ok h
  try dsimp only at h
  split at h
  · exact absurd (pure_ok h) (by simp)
  · split at h
    · obtain ⟨a, ha, hab⟩ := map_ok h
      cases hab
      exact parseParagraph_allSpans ha
    · split at h
      · obtain ⟨a, ha, hab⟩ := map_ok h
        cases hab
        exact parseHeading_allSpans ha
      · split at h
        · obtain ⟨a, ha, hab⟩ := map_ok h
          cases hab
          exact parseCodeBlock_allSpans ha
        · split at h
          · obtain ⟨a, ha, hab⟩ := map_ok h
            cases hab
            exact parseBlockquote_allSpans ha
          · split at h
            · obtain ⟨a, ha, hab⟩ := map_ok h
              cases hab
              exact parseHorizontalRule_allSpans ha
            · split at h
              · obtain ⟨a, ha, hab⟩ := map_ok h
                cases hab
                exact parseListNode_allSpans ha
              · split at h
                · obtain ⟨a, ha, hab⟩ := map_ok h
                  cases hab
                  exact parseListNode_allSpans ha
                · split at h
                  · obtain ⟨a, ha, hab⟩ := map_ok h
                    cases hab
                    exact parseListNode_allSpans ha
                  · split at h
                    · obtain ⟨a, ha, hab⟩ := map_ok h
                      cases hab
                      exact parseTable_allSpans ha
                    · exact absurd (pure_ok h) (by simp)

theorem parseContentNodes_allSpans :
    ∀ {nodes : List JValue} {blocks : List Block},
      parseContentNodes nodes = .ok blocks → ∀ b ∈ blocks, AllSpansNonempty b := by
  intro nodes
  induction nodes with
  | nil =>
    intro blocks h b hb
    rw [parseContentNodes] at h
    cases h
    exact absurd hb (List.not_mem_nil b)
  | cons node rest ih =>
    intro blocks h b hb
    rw [parseContentNodes.eq_def] at h
    dsimp only at h
    obtain ⟨b?, hb?, h⟩ := bind_ok h
    try dsimp only at h
    obtain ⟨tail, ht, h⟩ := bind_ok h
    try dsimp only at h
    have hbl := pure_ok h
    cases b? with
    | none =>
      rw [← hbl] at hb
      dsimp only at hb
      exact ih ht b hb
    | some b0 =>
      rw [← hbl] at hb
      dsimp only at hb
      rcases List.mem_cons.mp hb with rfl | hb'
      · exact parseNode_allSpans hb?
      · exact ih ht b hb'

/-- C10 (confirmed).  Every text span in any block of a document built by the
legacy builder or the modern parser has non-empty text: spans with empty text
are never emitted, even though the decoder-level span stream may contain
empty-text entries. -/
theorem C10_parsers_emit_nonempty_spans :
    (∀ (spans : List (List Char × List (String × String))) (b : Block),
      b ∈ (spansToDocument spans).blocks → AllSpansNonempty b) ∧
    (∀ (nodes : List JValue) (blocks : List Block),
      parseContentNodes nodes = .ok blocks → ∀ b ∈ blocks, AllSpansNonempty b) := by
  constructor
  · intro spans b hb
    refine spansLoop_sound AllSpansNonempty ?_ spans [] [] BlockType.paragraph []
      (fun b hb' => absurd hb' (List.not_mem_nil b))
      (fun s hs => absurd hs (List.not_mem_nil s)) b hb
    intro t c a b' hcb hcur
    obtain ⟨hne, hty, hch, hlist, hnot⟩ := createBlock_some hcb
    refine AllSpansNonempty.intro ?_ ?_
    · intro s hs
      by_cases ht : t = BlockType.list
      · rw [hlist ht] at hs
        exact absurd hs (List.not_mem_nil s)
      · rw [hnot ht] at hs
        exact hcur s hs
    · intro ch hc
      rw [hch] at hc
      exact absurd hc (List.not_mem_nil ch)
  · intro nodes blocks h b hb
    exact parseContentNodes_allSpans h b hb

/-- Witness for C10: the paragraph the legacy builder makes from span
`"hi"`, and the heading the modern parser makes from a heading node, both
satisfy the invariant. -/
theorem C10_parsers_witness :
    AllSpansNonempty exampleParaBlock ∧ AllSpansNonempty exampleNewHeadingBlock :=
  ⟨C10_parsers_emit_nonempty_spans.1 [("hi".data, [])] exampleParaBlock
      (List.mem_singleton.mpr rfl),
   C10_parsers_emit_nonempty_spans.2 [exampleHeadingNode] [exampleNewHeadingBlock] rfl
      exampleNewHeadingBlock (List.mem_singleton.mpr rfl)⟩
